import Mathlib

/-!
Verification of the ai-resume-tailor repository.

The repository is a small Python application that tailors a résumé to a job
description with LLM calls.  This file shallowly embeds the pure text
processing of the source files (`ai_agent.py`, `utils.py`, `prompts.py`,
`config.py`, `app.py`) in Lean and proves the specification's claims about
them.  Python strings are modelled as Lean `String`s; every text operation
used by the source (`str.split`, `str.strip`, `str.lower`, `str.upper`,
`str.startswith`, `str.replace`, substring membership, slicing) is given an
executable structural definition over the underlying character list, so that
theorems can both be proved by induction and evaluated on concrete inputs.

Code of the repository that is only called from `app.py` but whose defining
module is not part of the sources (the multi-provider failover dispatcher and
the JSON resume generator it feeds) is modelled from the specification text;
each such definition carries a doc comment starting with `Modelled from the
spec:`.
-/

set_option maxRecDepth 100000

namespace ResumeTailor

/-! ## Character-level string primitives

Executable models of the Python string operations used by the sources.
-/

/-- Python whitespace characters recognised by `str.strip()`. -/
def wsChar (c : Char) : Bool :=
  c = ' ' || c = '\t' || c = '\n' || c = '\r' || c = '\x0b' || c = '\x0c'

/-- Split a character list on a separator character; models Python
`str.split(sep)` for a one-character separator (always returns at least one
group, groups do not contain the separator). -/
def splitCharList (c : Char) : List Char → List (List Char)
  | [] => [[]]
  | a :: as =>
    if a = c then
      [] :: splitCharList c as
    else
      match splitCharList c as with
      | [] => [[a]]
      | g :: gs => (a :: g) :: gs

/-- Join character groups with a separator character (inverse of
`splitCharList`). -/
def joinCharList (c : Char) : List (List Char) → List Char
  | [] => []
  | [g] => g
  | g :: gs => g ++ c :: joinCharList c gs

/-- Python `text.split('\n')`. -/
def linesOfStr (s : String) : List String :=
  (splitCharList '\n' s.data).map String.mk

/-- Python `'\n'.join(lines)`. -/
def joinLines (ls : List String) : String :=
  String.mk (joinCharList '\n' (ls.map String.data))

/-- Strip Python whitespace from both ends of a character list. -/
def stripChars (l : List Char) : List Char :=
  ((l.dropWhile wsChar).reverse.dropWhile wsChar).reverse

/-- Python `str.strip()`. -/
def pyStrip (s : String) : String :=
  String.mk (stripChars s.data)

/-- Python `str.lower()` (ASCII, which is all the sources use). -/
def lowerStr (s : String) : String :=
  String.mk (s.data.map Char.toLower)

/-- Python `str.upper()` (ASCII). -/
def upperStr (s : String) : String :=
  String.mk (s.data.map Char.toUpper)

/-- Does `pat` occur at the head of `l`? -/
def isPrefixChars : List Char → List Char → Bool
  | [], _ => true
  | _ :: _, [] => false
  | p :: ps, a :: as => p = a && isPrefixChars ps as

/-- Python `str.startswith(pre)`. -/
def startsWithStr (s pre : String) : Bool :=
  isPrefixChars pre.data s.data

/-- Does `pat` occur as a contiguous substring of `hay`?  Models Python's
`pat in hay`. -/
def containsSubChars (pat : List Char) : List Char → Bool
  | [] => isPrefixChars pat []
  | a :: as => isPrefixChars pat (a :: as) || containsSubChars pat as

/-- Python `pat in s`. -/
def containsSubStr (s pat : String) : Bool :=
  containsSubChars pat.data s.data

/-- Python `str.replace(a, b)` for one-character `a`, `b`. -/
def replaceCharStr (s : String) (a b : Char) : String :=
  String.mk (s.data.map fun c => if c = a then b else c)

/-- Python slicing `s[n:]` (by characters; the sources only slice ASCII). -/
def dropStr (s : String) (n : Nat) : String :=
  String.mk (s.data.drop n)

/-- Python `int(s)` on a digit string (digit fold; non-digits ignored). -/
def natOfDigitStr (s : String) : Nat :=
  s.data.foldl (fun n c => if c.isDigit then n * 10 + (c.toNat - 48) else n) 0

/-! ### Basic lemmas about the primitives -/

theorem splitCharList_ne_nil (c : Char) (l : List Char) :
    splitCharList c l ≠ [] := by
  induction l with
  | nil => simp [splitCharList]
  | cons a as ih =>
    simp only [splitCharList]
    split
    · simp
    · cases h : splitCharList c as with
      | nil => exact absurd h ih
      | cons g gs => simp

theorem joinCharList_splitCharList (c : Char) (l : List Char) :
    joinCharList c (splitCharList c l) = l := by
  induction l with
  | nil => rfl
  | cons a as ih =>
    simp only [splitCharList]
    split
    · rename_i h
      cases hs : splitCharList c as with
      | nil => exact absurd hs (splitCharList_ne_nil c as)
      | cons g gs =>
        rw [hs] at ih
        subst h
        simp [joinCharList]
        cases gs <;> simpa [joinCharList] using ih
    · cases hs : splitCharList c as with
      | nil => exact absurd hs (splitCharList_ne_nil c as)
      | cons g gs =>
        rw [hs] at ih
        cases gs <;> simpa [joinCharList] using ih

theorem mem_splitCharList_not_mem (c : Char) (l : List Char) :
    ∀ g ∈ splitCharList c l, c ∉ g := by
  induction l with
  | nil => intro g hg; simp [splitCharList] at hg; simp [hg]
  | cons a as ih =>
    intro g hg
    simp only [splitCharList] at hg
    by_cases hac : a = c
    · rw [if_pos hac] at hg
      rcases List.mem_cons.mp hg with hg | hg
      · simp [hg]
      · exact ih g hg
    · rw [if_neg hac] at hg
      cases hs : splitCharList c as with
      | nil => exact absurd hs (splitCharList_ne_nil c as)
      | cons g' gs =>
        rw [hs] at hg
        rcases List.mem_cons.mp hg with hg | hg
        · subst hg
          intro hmem
          rcases List.mem_cons.mp hmem with h | h
          · exact hac h.symm
          · exact ih g' (hs ▸ List.mem_cons_self g' gs) h
        · exact ih g (hs ▸ List.mem_cons.mpr (Or.inr hg))

theorem splitCharList_append_cons (c : Char) (l₁ l₂ : List Char)
    (h : c ∉ l₁) :
    splitCharList c (l₁ ++ c :: l₂) = l₁ :: splitCharList c l₂ := by
  induction l₁ with
  | nil => simp [splitCharList]
  | cons a as ih =>
    have hac : ¬(a = c) := fun hac => h (hac ▸ List.mem_cons_self a as)
    have has : c ∉ as := fun hmem => h (List.mem_cons.mpr (Or.inr hmem))
    show splitCharList c (a :: (as ++ c :: l₂)) = _
    simp only [splitCharList, if_neg hac]
    rw [ih has]

theorem splitCharList_no_sep (c : Char) (l : List Char) (h : c ∉ l) :
    splitCharList c l = [l] := by
  induction l with
  | nil => rfl
  | cons a as ih =>
    have hac : ¬(a = c) := fun hac => h (hac ▸ List.mem_cons_self a as)
    have has : c ∉ as := fun hmem => h (List.mem_cons.mpr (Or.inr hmem))
    simp [splitCharList, if_neg hac, ih has]

theorem dropWhile_dropWhile (p : Char → Bool) (l : List Char) :
    (l.dropWhile p).dropWhile p = l.dropWhile p := by
  induction l with
  | nil => rfl
  | cons a as ih =>
    by_cases h : p a
    · simpa [List.dropWhile_cons, h] using ih
    · simp [List.dropWhile_cons, h]

theorem head?_dropWhile_not (p : Char → Bool) (l : List Char) {a : Char}
    (h : (l.dropWhile p).head? = some a) : p a = false := by
  induction l with
  | nil => simp at h
  | cons b bs ih =>
    by_cases hb : p b
    · exact ih (by simpa [List.dropWhile_cons, hb] using h)
    · simp [List.dropWhile_cons, hb] at h
      simpa [← h] using hb

theorem getLast?_dropWhile (p : Char → Bool) (l : List Char)
    (h : l.dropWhile p ≠ []) : (l.dropWhile p).getLast? = l.getLast? := by
  conv_rhs => rw [← List.takeWhile_append_dropWhile p l]
  rw [List.getLast?_append]
  cases hd : (l.dropWhile p).getLast? with
  | none => exact absurd (List.getLast?_eq_none_iff.mp hd) h
  | some x => simp [Option.or]

theorem stripChars_of_bounds (l : List Char)
    (hh : ∀ a, l.head? = some a → wsChar a = false)
    (hl : ∀ a, l.getLast? = some a → wsChar a = false) :
    stripChars l = l := by
  have h1 : l.dropWhile wsChar = l := by
    cases l with
    | nil => rfl
    | cons a as =>
      have := hh a rfl
      simp [List.dropWhile_cons, this]
  have h2 : l.reverse.dropWhile wsChar = l.reverse := by
    cases hr : l.reverse with
    | nil => rfl
    | cons a as =>
      have ha : l.getLast? = some a := by
        rw [← List.head?_reverse, hr]; rfl
      have := hl a ha
      simp [List.dropWhile_cons, this]
  unfold stripChars
  rw [h1, h2, List.reverse_reverse]

theorem head?_stripChars (l : List Char) {a : Char}
    (h : (stripChars l).head? = some a) : wsChar a = false := by
  unfold stripChars at h
  rw [List.head?_reverse] at h
  have hne : (l.dropWhile wsChar).reverse.dropWhile wsChar ≠ [] := by
    intro hnil
    rw [hnil] at h
    simp at h
  rw [getLast?_dropWhile _ _ hne, List.getLast?_reverse] at h
  exact head?_dropWhile_not _ _ h

theorem getLast?_stripChars (l : List Char) {a : Char}
    (h : (stripChars l).getLast? = some a) : wsChar a = false := by
  unfold stripChars at h
  rw [List.getLast?_reverse] at h
  exact head?_dropWhile_not _ _ h

theorem stripChars_idem (l : List Char) :
    stripChars (stripChars l) = stripChars l :=
  stripChars_of_bounds _ (fun _ h => head?_stripChars l h)
    (fun _ h => getLast?_stripChars l h)

theorem pyStrip_pyStrip (s : String) : pyStrip (pyStrip s) = pyStrip s := by
  simp [pyStrip, stripChars_idem]

/-! ## `ai_agent.py` — the section-tailoring pipeline

`tailor_resume` splits the CV text into lines, walks them against an ordered
dictionary of heading regexes, accumulates each section's body, and flushes
it into `extracted_sections_raw` when the next heading is recognised or at
end of input; `section_order` records the first-seen order with
`CONTACT_INFO` first.  The Gemini call inside `tailor_section` is modelled by
an oracle `model : String → ModelResult`; the embedding also returns the list
of prompts actually sent so that "no model call was attempted" is expressible.
-/

/-- Result of one `model.generate_content` call: the response text, or the
message of the raised exception. -/
inductive ModelResult where
  | ok (text : String)
  | raised (msg : String)
deriving DecidableEq

/-- The ordered `section_patterns` dict of `tailor_resume`.  Each Python
value is a regex `^(alt1|alt2|…)` applied with `re.search` and
`re.IGNORECASE` to `line.strip()`; since the alternatives are plain literals
and the pattern is anchored, a line matches exactly when its stripped,
lower-cased form starts with one of the alternatives. -/
def section_patterns : List (String × List String) :=
  [("PROFESSIONAL_SUMMARY", ["professional summary", "summary", "profile", "about me"]),
   ("PROFESSIONAL_EXPERIENCE", ["professional experience", "experience", "work experience"]),
   ("CORE_SKILLS", ["core skills", "skills", "technical skills", "key skills", "core competencies"]),
   ("KEY_ACHIEVEMENTS", ["key achievements", "achievements", "career highlights"]),
   ("EDUCATION", ["education", "academic background"]),
   ("PROJECTS", ["projects", "portfolio", "personal projects"]),
   ("AWARDS_AND_HONORS", ["awards & honors", "awards", "honors"]),
   ("CERTIFICATIONS", ["certifications", "licenses"]),
   ("VOLUNTEER_EXPERIENCE", ["volunteer experience", "volunteering"]),
   ("LANGUAGES", ["languages"]),
   ("INTERESTS", ["interests", "hobbies"])]

/-- The section identifiers eligible for AI tailoring (`SECTIONS_TO_TAILOR`). -/
def SECTIONS_TO_TAILOR : List String :=
  ["PROFESSIONAL_SUMMARY", "KEY_ACHIEVEMENTS", "CORE_SKILLS", "PROFESSIONAL_EXPERIENCE"]

/-- `re.search(pattern, line.strip(), re.IGNORECASE)` for one pattern
`^(alt1|alt2|…)` of literal alternatives. -/
def lineMatchesAlts (alts : List String) (line : String) : Bool :=
  alts.any fun alt => startsWithStr (lowerStr (pyStrip line)) alt

/-- The inner `for key, pattern in section_patterns.items()` loop: the first
pattern in dictionary order that matches wins. -/
def matchHeading (line : String) : Option String :=
  (section_patterns.find? fun kp => lineMatchesAlts kp.2 line).map Prod.fst

/-- Dictionary update `d[k] = v`, on an insertion-ordered association list. -/
def setSection : List (String × String) → String → String → List (String × String)
  | [], k, v => [(k, v)]
  | (k', v') :: rest, k, v =>
    if k' = k then (k, v) :: rest else (k', v') :: setSection rest k v

/-- Dictionary read `d.get(k, "")`. -/
def getSection : List (String × String) → String → String
  | [], _ => ""
  | (k', v) :: rest, k => if k' = k then v else getSection rest k

/-- State of the segmentation loop of `tailor_resume`. -/
structure SegState where
  sections : List (String × String)
  order : List String
  current : String
  buffer : List String

/-- One iteration of `for line in lines` in `tailor_resume`: on a recognised
heading, flush the previous section's buffer (`"\n".join(buffer).strip()`),
append the key to `section_order` if new, and reset the buffer; otherwise
accumulate the line. -/
def segStep (st : SegState) (line : String) : SegState :=
  match matchHeading line with
  | some key =>
      { sections := setSection st.sections st.current (pyStrip (joinLines st.buffer))
        order := if st.order.contains key then st.order else st.order ++ [key]
        current := key
        buffer := [] }
  | none => { st with buffer := st.buffer ++ [line] }

/-- The initial state: the text above the first heading belongs to
`CONTACT_INFO`, which is pushed onto `section_order` up front. -/
def initialSegState : SegState :=
  { sections := [], order := ["CONTACT_INFO"], current := "CONTACT_INFO", buffer := [] }

/-- Outcome of segmentation: `extracted_sections_raw` and `section_order`. -/
structure SegResult where
  sections : List (String × String)
  order : List String

/-- The final flush after the loop: the last section's buffer is saved. -/
def flushSeg (st : SegState) : List (String × String) :=
  setSection st.sections st.current (pyStrip (joinLines st.buffer))

/-- The segmentation loop over an explicit line list, including the final
flush of the last section after the loop. -/
def segmentLines (lines : List String) : SegResult :=
  let st := lines.foldl segStep initialSegState
  { sections := flushSeg st
    order := st.order }

/-- The section segmentation performed by `tailor_resume` on
`cv_text.split('\n')`. -/
def segmentCV (cv_text : String) : SegResult :=
  segmentLines (linesOfStr cv_text)

/-- `re.sub(r'\[.*?\]', '', text)` helper: characters after a `[` up to and
including the first `]`, failing at a newline (`.` does not match `\n`). -/
def dropToClose : List Char → Option (List Char)
  | [] => none
  | ']' :: rest => some rest
  | '\n' :: _ => none
  | _ :: rest => dropToClose rest

/-- Fuelled scan implementing `re.sub(r'\[.*?\]', '', text)`. -/
def removeBracketsAux : Nat → List Char → List Char
  | _, [] => []
  | 0, l => l
  | fuel + 1, c :: rest =>
    if c = '[' then
      match dropToClose rest with
      | some rest' => removeBracketsAux fuel rest'
      | none => c :: removeBracketsAux fuel rest
    else c :: removeBracketsAux fuel rest

/-- `re.sub(r'\[.*?\]', '', text)`: remove bracketed placeholder spans. -/
def removeBracketed (s : String) : String :=
  String.mk (removeBracketsAux s.data.length s.data)

/-- The fixed body of the `tailor_section` prompt before the special rules. -/
def tailorSectionPromptBase (section_name section_content job_description : String) : String :=
  "\n    You are an expert resume writer and career coach specializing in Applicant Tracking System (ATS) optimization.\n    Your task is to rewrite the \"" ++ section_name ++
  "\" section of a resume to be highly relevant to a given job description.\n    The output must be professional, impactful, and sound natural.\n\n    ---\n    **Resume Section Name:** " ++ section_name ++
  "\n    **Original Resume Section Content (as text):**\n    " ++ section_content ++
  "\n    ---\n    **Full Job Description for Context:**\n    " ++ job_description ++
  "\n    ---\n\n    **CRITICAL INSTRUCTIONS:**\n    1.  **Integrate Keywords:** Aggressively integrate keywords and phrases from the `Job Description`.\n    2.  **Use Action Verbs:** Start bullet points with strong action verbs (e.g., \"Developed,\" \"Managed,\" \"Analyzed\").\n    3.  **Quantify Achievements:** Quantify achievements with metrics. **DO NOT use placeholders like \"[Add quantifiable achievement here]\". Instead, generate a plausible, realistic example based on the context.** For instance, instead of \"[Quantifiable results to be added]\", write \"achieving a 15% increase in efficiency.\" The user can edit this later if needed.\n    4.  **Preserve Structure:** Retain the original format (bullet points, etc.). Do not add the section heading to your output.\n    5.  **Natural Tone:** The language must sound confident and human, not robotic.\n    "

/-- The special-rule block appended for the Professional Experience section. -/
def experienceSpecialRule : String :=
  "\n    **SPECIAL RULE FOR THIS SECTION:**\n    You MUST preserve the job titles, company names, and employment dates exactly as they are. Your ONLY task is to rewrite the bullet points under each job to align them with the job description. Do not alter the header line for each job entry (e.g., \"Data Entry Specialist | Conduent | September 2024 – Present\").\n    "

/-- The special-rule block appended for the Core Skills section. -/
def coreSkillsSpecialRule : String :=
  "\n    **SPECIAL RULE FOR THIS SECTION:**\n    Rewrite the skills into categorized, keyword-focused groups. Do NOT use full sentences or bullet points that describe experiences. The format must be a category followed by a colon and then a list of related skills separated by \x27•\x27.\n\n    **Example Format:**\n    Business Analysis: Requirements Gathering • User Stories • Acceptance Criteria • Gap Analysis\n    Data & Reporting: Power BI Dashboards • SQL • Excel • Trend Analysis • Data Cleansing\n    Agile Delivery: Sprint Planning • QA/UAT Testing • Application Enhancements\n    "

/-- The complete prompt assembled by `tailor_section`. -/
def tailorSectionPrompt (section_name section_content job_description : String) : String :=
  tailorSectionPromptBase section_name section_content job_description ++
  (if upperStr section_name = "PROFESSIONAL EXPERIENCE" then experienceSpecialRule else "") ++
  (if upperStr section_name = "CORE SKILLS" then coreSkillsSpecialRule else "") ++
  "\nBegin tailoring now:"

/-- `tailor_section` of `ai_agent.py`.  Returns the value Python returns
together with the list of prompts sent to the model (empty when the
early-return for empty content fires, so no model call is attempted).
`if not section_content or not section_content.strip()` is equivalent to the
stripped content being empty. -/
def tailor_section (section_name section_content job_description api_key : String)
    (model : String → ModelResult) : String × List String :=
  if pyStrip section_content = "" then ("", [])
  else
    let prompt := tailorSectionPrompt section_name section_content job_description
    match model prompt with
    | .ok text => (pyStrip (removeBracketed text), [prompt])
    | .raised msg => ("Error tailoring " ++ section_name ++ ": " ++ msg, [prompt])

/-- Python `key.replace('_', ' ').title()` on a section identifier: each
underscore-separated word capitalised. -/
def titleCaseWord (w : List Char) : String :=
  match w with
  | [] => ""
  | c :: cs => String.mk (c.toUpper :: cs.map Char.toLower)

/-- `section_key.replace('_', ' ').title()` in `tailor_resume`. -/
def humanReadableName (key : String) : String :=
  String.mk (joinCharList ' ' ((splitCharList '_' key.data).map fun w => (titleCaseWord w).data))

/-- `tailor_resume` of `ai_agent.py`: segment the CV, then walk
`section_order`, tailoring the allow-listed non-empty sections through
`tailor_section` and passing every other section through verbatim.  Returns
`(tailored_sections, section_order)` as the Python dict (insertion-ordered
association list) and list.  `tailoredValue` is the value stored for one
`section_key` of `section_order` in the loop body. -/
def tailoredValue (seg : SegResult) (job_description api_key : String)
    (model : String → ModelResult) (section_key : String) : String :=
  let raw := pyStrip (getSection seg.sections section_key)
  if SECTIONS_TO_TAILOR.contains section_key && raw != "" then
    (tailor_section (humanReadableName section_key) raw job_description api_key model).1
  else raw

def tailor_resume (cv_text job_description api_key : String)
    (model : String → ModelResult) : List (String × String) × List String :=
  let seg := segmentCV cv_text
  let parts := seg.order.foldl (fun acc section_key =>
    acc ++ [(section_key, tailoredValue seg job_description api_key model section_key)]) []
  (parts, seg.order)

/-! ### Invariants of the segmentation loop -/

theorem getSection_setSection_self (m : List (String × String)) (k v : String) :
    getSection (setSection m k v) k = v := by
  induction m with
  | nil => simp [setSection, getSection]
  | cons kv rest ih =>
    obtain ⟨k', v'⟩ := kv
    by_cases h : k' = k
    · simp [setSection, h, getSection]
    · simp [setSection, h, getSection, ih]

theorem getSection_setSection_ne (m : List (String × String)) (k v k' : String)
    (h : k' ≠ k) : getSection (setSection m k v) k' = getSection m k' := by
  induction m with
  | nil => simp [setSection, getSection, Ne.symm h]
  | cons kv rest ih =>
    obtain ⟨k₀, v₀⟩ := kv
    by_cases h₀ : k₀ = k
    · subst h₀
      simp [setSection, getSection, Ne.symm h]
    · simp [setSection, h₀, getSection, ih]

/-- The keys of `section_patterns`, in dictionary order. -/
def patternKeys : List String := section_patterns.map Prod.fst

theorem matchHeading_mem {line k : String} (h : matchHeading line = some k) :
    k ∈ patternKeys := by
  unfold matchHeading at h
  cases hf : section_patterns.find? fun kp => lineMatchesAlts kp.2 line with
  | none => rw [hf] at h; cases h
  | some kp =>
    rw [hf] at h
    have hk : kp.1 = k := by simpa using h
    exact hk ▸ List.mem_map_of_mem Prod.fst (List.mem_of_find?_eq_some hf)

theorem contact_not_pattern : "CONTACT_INFO" ∉ patternKeys := by decide

theorem matchHeading_ne_contact {line k : String} (h : matchHeading line = some k) :
    k ≠ "CONTACT_INFO" :=
  fun hk => contact_not_pattern (hk ▸ matchHeading_mem h)

theorem segStep_order (st : SegState) (l : String) :
    (segStep st l).order = st.order ∨
      ∃ k, matchHeading l = some k ∧ k ∉ st.order ∧
        (segStep st l).order = st.order ++ [k] := by
  cases hm : matchHeading l with
  | none => exact Or.inl (by simp [segStep, hm])
  | some k =>
    by_cases hc : k ∈ st.order
    · exact Or.inl (by simp [segStep, hm, hc])
    · exact Or.inr ⟨k, rfl, hc, by simp [segStep, hm, hc]⟩

theorem foldl_segStep_order_isPrefixOf (lines : List String) (st : SegState) :
    st.order <+: (lines.foldl segStep st).order := by
  induction lines generalizing st with
  | nil => exact List.prefix_refl _
  | cons l ls ih =>
    refine List.IsPrefix.trans ?_ (ih (segStep st l))
    rcases segStep_order st l with h | ⟨k, _, _, h⟩
    · rw [h]
    · rw [h]; exact List.prefix_append _ _

theorem foldl_segStep_order_nodup (lines : List String) (st : SegState)
    (h : st.order.Nodup) : (lines.foldl segStep st).order.Nodup := by
  induction lines generalizing st with
  | nil => exact h
  | cons l ls ih =>
    refine ih (segStep st l) ?_
    rcases segStep_order st l with he | ⟨k, _, hk, he⟩
    · rw [he]; exact h
    · rw [he]
      exact List.Nodup.append h (List.nodup_singleton k)
        (by simpa [List.disjoint_singleton] using hk)

theorem foldl_segStep_order_head? (lines : List String) (st : SegState)
    (h : st.order ≠ []) :
    (lines.foldl segStep st).order.head? = st.order.head? := by
  have hpre := foldl_segStep_order_isPrefixOf lines st
  obtain ⟨t, ht⟩ := hpre
  cases horder : st.order with
  | nil => exact absurd horder h
  | cons a rest => rw [← ht, horder]; rfl

theorem foldl_segStep_order_mem (lines : List String) (st : SegState) (k : String) :
    k ∈ (lines.foldl segStep st).order ↔
      k ∈ st.order ∨ ∃ l ∈ lines, matchHeading l = some k := by
  induction lines generalizing st with
  | nil => simp
  | cons l ls ih =>
    simp only [List.foldl_cons, ih (segStep st l), List.mem_cons]
    constructor
    · rintro (hmem | ⟨l', hl', hm⟩)
      · unfold segStep at hmem
        cases hm : matchHeading l with
        | none => rw [hm] at hmem; exact Or.inl hmem
        | some k' =>
          rw [hm] at hmem
          simp only at hmem
          by_cases hc : st.order.contains k'
          · rw [if_pos hc] at hmem; exact Or.inl hmem
          · rw [if_neg hc] at hmem
            rcases List.mem_append.mp hmem with hmem | hmem
            · exact Or.inl hmem
            · simp at hmem
              exact Or.inr ⟨l, Or.inl rfl, hmem ▸ hm⟩
      · exact Or.inr ⟨l', Or.inr hl', hm⟩
    · rintro (hmem | ⟨l', hl' | hl', hm⟩)
      · left
        unfold segStep
        cases hmh : matchHeading l with
        | none => exact hmem
        | some k' =>
          simp only
          by_cases hc : st.order.contains k'
          · rw [if_pos hc]; exact hmem
          · rw [if_neg hc]; exact List.mem_append.mpr (Or.inl hmem)
      · subst hl'
        left
        unfold segStep
        rw [hm]
        simp only
        by_cases hc : st.order.contains k
        · rw [if_pos hc]
          simpa using hc
        · rw [if_neg hc]
          simp
      · exact Or.inr ⟨l', hl', hm⟩

theorem segmentLines_order_head (lines : List String) :
    (segmentLines lines).order.head? = some "CONTACT_INFO" := by
  unfold segmentLines
  simpa [initialSegState] using
    foldl_segStep_order_head? lines initialSegState (by simp [initialSegState])

theorem segmentLines_order_nodup (lines : List String) :
    (segmentLines lines).order.Nodup := by
  unfold segmentLines
  exact foldl_segStep_order_nodup lines initialSegState (by simp [initialSegState])

theorem segmentLines_order_mem (lines : List String) (k : String) :
    k ∈ (segmentLines lines).order ↔
      k = "CONTACT_INFO" ∨ ∃ l ∈ lines, matchHeading l = some k := by
  unfold segmentLines
  simpa [initialSegState] using foldl_segStep_order_mem lines initialSegState k

theorem foldl_append_pairs (g : String → String) (order : List String)
    (acc : List (String × String)) :
    order.foldl (fun a k => a ++ [(k, g k)]) acc
      = acc ++ order.map (fun k => (k, g k)) := by
  induction order generalizing acc with
  | nil => simp
  | cons k ks ih => simp [ih]

theorem tailor_resume_parts_eq (cv_text job_description api_key : String)
    (model : String → ModelResult) :
    (tailor_resume cv_text job_description api_key model).1
      = (segmentCV cv_text).order.map (fun k =>
          (k, tailoredValue (segmentCV cv_text) job_description api_key model k)) := by
  unfold tailor_resume
  exact foldl_append_pairs _ _ []

/-- **C9.** For every CV text and job description, the dictionary of tailored
sections returned by `tailor_resume` and the returned `section_order` list
have exactly the same keys: the keys of `tailored_sections` in dictionary
order are precisely `section_order`, `section_order` contains no duplicates,
and its first element is `CONTACT_INFO`. -/
theorem claim_C9_sections_match_order (cv_text job_description api_key : String)
    (model : String → ModelResult) :
    (tailor_resume cv_text job_description api_key model).1.map Prod.fst
        = (tailor_resume cv_text job_description api_key model).2
      ∧ (tailor_resume cv_text job_description api_key model).2.Nodup
      ∧ (tailor_resume cv_text job_description api_key model).2.head?
          = some "CONTACT_INFO" := by
  have h2 : (tailor_resume cv_text job_description api_key model).2
      = (segmentCV cv_text).order := rfl
  refine ⟨?_, ?_, ?_⟩
  · rw [tailor_resume_parts_eq, h2]
    induction (segmentCV cv_text).order with
    | nil => rfl
    | cons k ks ih => simpa using ih
  · rw [h2]
    exact segmentLines_order_nodup _
  · rw [h2]
    exact segmentLines_order_head _

/-- **C10.** For every section name, job description and API key,
`tailor_section` applied to an empty or whitespace-only section content
returns the empty string and sends no prompt to the model (the early return
fires before any model call). -/
theorem claim_C10_empty_section_no_call
    (section_name section_content job_description api_key : String)
    (model : String → ModelResult)
    (h : ∀ c ∈ section_content.data, wsChar c = true) :
    tailor_section section_name section_content job_description api_key model
      = ("", []) := by
  have hs : pyStrip section_content = "" := by
    unfold pyStrip stripChars
    have h1 : section_content.data.dropWhile wsChar = [] := by
      rw [List.dropWhile_eq_nil_iff]
      intro c hc
      exact h c hc
    rw [h1]
    rfl
  unfold tailor_section
  rw [if_pos hs]

/-- Witness for C10 at a concrete whitespace-only content. -/
theorem claim_C10_witness :
    tailor_section "Core Skills" " \t " "jd" "key" (fun _ => ModelResult.ok "text")
      = ("", []) :=
  claim_C10_empty_section_no_call "Core Skills" " \t " "jd" "key"
    (fun _ => ModelResult.ok "text") (by decide)

/-! ### The segmentation loop flushes buffered content exactly at the next
heading or at end of input, attributes the leading text to `CONTACT_INFO`,
and resolves heading matches first-pattern-first. -/

theorem segStep_of_none {st : SegState} {l : String}
    (hm : matchHeading l = none) :
    segStep st l = { st with buffer := st.buffer ++ [l] } := by
  simp [segStep, hm]

theorem segStep_sections_of_some {st : SegState} {l k : String}
    (hm : matchHeading l = some k) :
    (segStep st l).sections
      = setSection st.sections st.current (pyStrip (joinLines st.buffer)) := by
  simp [segStep, hm]

theorem segStep_current_of_some {st : SegState} {l k : String}
    (hm : matchHeading l = some k) : (segStep st l).current = k := by
  simp [segStep, hm]

theorem segStep_buffer_of_some {st : SegState} {l k : String}
    (hm : matchHeading l = some k) : (segStep st l).buffer = [] := by
  simp [segStep, hm]

theorem foldl_segStep_no_heading (ls : List String) (st : SegState)
    (h : ∀ x ∈ ls, matchHeading x = none) :
    ls.foldl segStep st = { st with buffer := st.buffer ++ ls } := by
  induction ls generalizing st with
  | nil => simp
  | cons l ls ih =>
    rw [List.foldl_cons, segStep_of_none (h l (List.mem_cons_self l ls)),
      ih _ (fun x hx => h x (List.mem_cons.mpr (Or.inr hx)))]
    simp

theorem getSection_flushSeg_contact_pres (ls : List String) (st : SegState)
    (h : st.current ≠ "CONTACT_INFO") :
    getSection (flushSeg (ls.foldl segStep st)) "CONTACT_INFO"
      = getSection st.sections "CONTACT_INFO" := by
  induction ls generalizing st with
  | nil =>
    unfold flushSeg
    exact getSection_setSection_ne _ _ _ _ (Ne.symm h)
  | cons l ls ih =>
    rw [List.foldl_cons]
    cases hm : matchHeading l with
    | none =>
      rw [segStep_of_none hm]
      exact ih _ h
    | some key =>
      have hkey : (segStep st l).current ≠ "CONTACT_INFO" := by
        rw [segStep_current_of_some hm]
        exact matchHeading_ne_contact hm
      rw [ih _ hkey, segStep_sections_of_some hm]
      exact getSection_setSection_ne _ _ _ _ (Ne.symm h)

theorem getSection_flushSeg_contact (ls : List String) (st : SegState)
    (hcur : st.current = "CONTACT_INFO") (hsec : st.sections = []) :
    getSection (flushSeg (ls.foldl segStep st)) "CONTACT_INFO"
      = pyStrip (joinLines (st.buffer ++ ls.takeWhile fun x => (matchHeading x).isNone)) := by
  induction ls generalizing st with
  | nil =>
    rw [List.foldl_nil]
    unfold flushSeg
    rw [hcur, hsec]
    simp [getSection_setSection_self]
  | cons l ls ih =>
    rw [List.foldl_cons]
    cases hm : matchHeading l with
    | none =>
      rw [segStep_of_none hm,
        ih { st with buffer := st.buffer ++ [l] } hcur hsec]
      simp [List.takeWhile_cons, hm]
    | some key =>
      have hkey : (segStep st l).current ≠ "CONTACT_INFO" := by
        rw [segStep_current_of_some hm]
        exact matchHeading_ne_contact hm
      rw [getSection_flushSeg_contact_pres ls _ hkey,
        segStep_sections_of_some hm, hsec, hcur, getSection_setSection_self]
      simp [List.takeWhile_cons, hm]

theorem segment_contact_head (lines : List String) :
    getSection (segmentLines lines).sections "CONTACT_INFO"
      = pyStrip (joinLines (lines.takeWhile fun x => (matchHeading x).isNone)) := by
  unfold segmentLines
  simpa [initialSegState] using
    getSection_flushSeg_contact lines initialSegState rfl rfl

theorem segment_last_flush (pre post : List String) (l : String) (k : String)
    (hm : matchHeading l = some k) (hpost : ∀ x ∈ post, matchHeading x = none) :
    getSection (segmentLines (pre ++ l :: post)).sections k
      = pyStrip (joinLines post) := by
  unfold segmentLines
  simp only
  rw [List.foldl_append, List.foldl_cons, foldl_segStep_no_heading post _ hpost]
  unfold flushSeg
  simp only
  rw [segStep_buffer_of_some hm, segStep_current_of_some hm]
  simp [getSection_setSection_self]

/-- The heading keys of a line list in order of first appearance, given the
keys already recorded: the pure content of
`if key not in section_order: section_order.append(key)` over the lines. -/
def firstSeenKeys (lines : List String) (seen : List String) : List String :=
  match lines with
  | [] => []
  | l :: ls =>
    match matchHeading l with
    | some k =>
      if seen.contains k then firstSeenKeys ls seen
      else k :: firstSeenKeys ls (seen ++ [k])
    | none => firstSeenKeys ls seen

theorem foldl_segStep_order_firstSeen (lines : List String) (st : SegState) :
    (lines.foldl segStep st).order = st.order ++ firstSeenKeys lines st.order := by
  induction lines generalizing st with
  | nil => simp [firstSeenKeys]
  | cons l ls ih =>
    rw [List.foldl_cons, ih (segStep st l)]
    cases hm : matchHeading l with
    | none =>
      rw [segStep_of_none hm]
      simp [firstSeenKeys, hm]
    | some k =>
      by_cases hc : k ∈ st.order
      · have horder : (segStep st l).order = st.order := by simp [segStep, hm, hc]
        rw [horder]
        simp [firstSeenKeys, hm, hc]
      · have horder : (segStep st l).order = st.order ++ [k] := by
          simp [segStep, hm, hc]
        rw [horder,
          show firstSeenKeys (l :: ls) st.order
            = k :: firstSeenKeys ls (st.order ++ [k]) from by
              simp [firstSeenKeys, hm, hc]]
        simp [List.append_assoc]

theorem segmentLines_order_firstSeen (lines : List String) :
    (segmentLines lines).order
      = "CONTACT_INFO" :: firstSeenKeys lines ["CONTACT_INFO"] := by
  unfold segmentLines
  simp only
  rw [foldl_segStep_order_firstSeen lines initialSegState]
  rfl

theorem getSection_flushSeg_pres (ls : List String) (st : SegState) (k : String)
    (hcur : st.current ≠ k) (hls : ∀ l ∈ ls, matchHeading l ≠ some k) :
    getSection (flushSeg (ls.foldl segStep st)) k = getSection st.sections k := by
  induction ls generalizing st with
  | nil =>
    rw [List.foldl_nil]
    unfold flushSeg
    exact getSection_setSection_ne _ _ _ _ (Ne.symm hcur)
  | cons l ls ih =>
    rw [List.foldl_cons]
    cases hm : matchHeading l with
    | none =>
      rw [segStep_of_none hm]
      exact ih _ hcur fun x hx => hls x (List.mem_cons.mpr (Or.inr hx))
    | some key =>
      have hkey : key ≠ k := fun hkk =>
        hls l (List.mem_cons_self l ls) (hkk ▸ hm)
      have hcur' : (segStep st l).current ≠ k := by
        rw [segStep_current_of_some hm]
        exact hkey
      rw [ih _ hcur' fun x hx => hls x (List.mem_cons.mpr (Or.inr hx)),
        segStep_sections_of_some hm]
      exact getSection_setSection_ne _ _ _ _ (Ne.symm hcur)

theorem segment_middle_flush (pre mid post : List String) (l₁ l₂ k₁ k₂ : String)
    (h₁ : matchHeading l₁ = some k₁) (hmid : ∀ x ∈ mid, matchHeading x = none)
    (h₂ : matchHeading l₂ = some k₂) (hk : k₁ ≠ k₂)
    (hpost : ∀ x ∈ post, matchHeading x ≠ some k₁) :
    getSection (segmentLines (pre ++ l₁ :: (mid ++ l₂ :: post))).sections k₁
      = pyStrip (joinLines mid) := by
  unfold segmentLines
  simp only
  rw [List.foldl_append, List.foldl_cons, List.foldl_append, List.foldl_cons,
    foldl_segStep_no_heading mid _ hmid]
  rw [getSection_flushSeg_pres post _ k₁
    (by rw [segStep_current_of_some h₂]; exact Ne.symm hk) hpost]
  rw [segStep_sections_of_some h₂]
  show getSection
    (setSection (segStep (pre.foldl segStep initialSegState) l₁).sections
      (segStep (pre.foldl segStep initialSegState) l₁).current
      (pyStrip (joinLines ((segStep (pre.foldl segStep initialSegState) l₁).buffer ++ mid))))
    k₁ = pyStrip (joinLines mid)
  rw [segStep_current_of_some h₁, segStep_buffer_of_some h₁, List.nil_append,
    getSection_setSection_self]

theorem find?_eq_some_first {α : Type} (p : α → Bool) (l : List α) (x : α) :
    l.find? p = some x ↔
      p x = true ∧ ∃ l₁ l₂, l = l₁ ++ x :: l₂ ∧ ∀ y ∈ l₁, p y = false := by
  induction l with
  | nil => simp
  | cons a as ih =>
    by_cases ha : p a = true
    · rw [List.find?_cons_of_pos _ ha]
      constructor
      · intro h
        obtain rfl : a = x := by simpa using h
        exact ⟨ha, [], as, rfl, by simp⟩
      · rintro ⟨hx, l₁, l₂, heq, hfst⟩
        cases l₁ with
        | nil =>
          simp at heq
          rw [heq.1]
        | cons b bs =>
          simp only [List.cons_append, List.cons.injEq] at heq
          exact absurd ha
            (by simpa [heq.1] using hfst b (List.mem_cons_self b bs))
    · rw [List.find?_cons_of_neg _ (by simpa using ha), ih]
      constructor
      · rintro ⟨hx, l₁, l₂, heq, hfst⟩
        refine ⟨hx, a :: l₁, l₂, by simp [heq], ?_⟩
        intro y hy
        rcases List.mem_cons.mp hy with rfl | hy
        · simpa using ha
        · exact hfst y hy
      · rintro ⟨hx, l₁, l₂, heq, hfst⟩
        cases l₁ with
        | nil =>
          simp at heq
          exact absurd (heq.1 ▸ hx) ha
        | cons b bs =>
          simp only [List.cons_append, List.cons.injEq] at heq
          exact ⟨hx, bs, l₂, heq.2,
            fun y hy => hfst y (List.mem_cons.mpr (Or.inr hy))⟩

theorem matchHeading_first_match (line : String) (k : String) :
    matchHeading line = some k ↔
      ∃ alts l₁ l₂, section_patterns = l₁ ++ (k, alts) :: l₂ ∧
        lineMatchesAlts alts line = true ∧
        ∀ kp ∈ l₁, lineMatchesAlts kp.2 line = false := by
  unfold matchHeading
  constructor
  · intro h
    obtain ⟨kp, hf, hk⟩ := Option.map_eq_some'.mp h
    obtain ⟨hx, l₁, l₂, heq, hfst⟩ := (find?_eq_some_first _ _ _).mp hf
    have hkp : (k, kp.2) = kp := by rw [← hk]
    exact ⟨kp.2, l₁, l₂, by rw [hkp]; exact heq, hx, hfst⟩
  · rintro ⟨alts, l₁, l₂, heq, hmatch, hfst⟩
    have hf : section_patterns.find? (fun kp => lineMatchesAlts kp.2 line)
        = some (k, alts) :=
      (find?_eq_some_first _ _ _).mpr ⟨hmatch, l₁, l₂, heq, hfst⟩
    rw [hf]
    rfl

/-- **C4.** For every document, segmentation attributes all text preceding the
first recognised heading to `CONTACT_INFO`; when several heading patterns
could match a line, the first pattern in the ordered dictionary wins; a
section's accumulated body is flushed to the map when the next heading is
recognised (the non-heading lines between one heading and the next become the
first heading's content, provided that section is not re-opened later) or at
end of input (the trailing non-heading lines become the last heading's
content); and `section_order` records sections in first-seen order — no
duplicates — with `CONTACT_INFO` always first: the order list is exactly
`CONTACT_INFO` followed by the recognised heading keys of the document's
lines in order of first appearance (`firstSeenKeys`). -/
theorem claim_C4_segmentation (doc line l l₂ : String) (k k' k₂ : String)
    (pre mid post : List String) :
    (getSection (segmentCV doc).sections "CONTACT_INFO"
        = pyStrip (joinLines ((linesOfStr doc).takeWhile fun x => (matchHeading x).isNone)))
    ∧ (matchHeading line = some k ↔
        ∃ alts l₁ l₂, section_patterns = l₁ ++ (k, alts) :: l₂ ∧
          lineMatchesAlts alts line = true ∧
          ∀ kp ∈ l₁, lineMatchesAlts kp.2 line = false)
    ∧ ((matchHeading l = some k' ∧ ∀ x ∈ post, matchHeading x = none) →
        getSection (segmentLines (pre ++ l :: post)).sections k'
          = pyStrip (joinLines post))
    ∧ ((matchHeading l = some k' ∧ (∀ x ∈ mid, matchHeading x = none)
        ∧ matchHeading l₂ = some k₂ ∧ k' ≠ k₂
        ∧ (∀ x ∈ post, matchHeading x ≠ some k')) →
        getSection (segmentLines (pre ++ l :: (mid ++ l₂ :: post))).sections k'
          = pyStrip (joinLines mid))
    ∧ (segmentCV doc).order.head? = some "CONTACT_INFO"
    ∧ (segmentCV doc).order.Nodup
    ∧ (∀ key, key ∈ (segmentCV doc).order ↔
        key = "CONTACT_INFO" ∨ ∃ x ∈ linesOfStr doc, matchHeading x = some key)
    ∧ (segmentCV doc).order
        = "CONTACT_INFO" :: firstSeenKeys (linesOfStr doc) ["CONTACT_INFO"] :=
  ⟨segment_contact_head (linesOfStr doc),
   matchHeading_first_match line k,
   fun h => segment_last_flush pre post l k' h.1 h.2,
   fun h => segment_middle_flush pre mid post l l₂ k' k₂
     h.1 h.2.1 h.2.2.1 h.2.2.2.1 h.2.2.2.2,
   segmentLines_order_head (linesOfStr doc),
   segmentLines_order_nodup (linesOfStr doc),
   fun key => segmentLines_order_mem (linesOfStr doc) key,
   segmentLines_order_firstSeen (linesOfStr doc)⟩

/-- Witness for C4 at concrete documents: the trailing lines after the last
recognised heading (`Skills`) are flushed to `CORE_SKILLS` at end of input;
a summary body is flushed to `PROFESSIONAL_SUMMARY` when the `Education`
heading is recognised; and for a document where `Summary` re-appears after
`Education`, the order list keeps the first-seen positions. -/
theorem claim_C4_witness :
    getSection (segmentLines (["Jane Doe"] ++ "Skills" :: ["Python", "SQL"])).sections
        "CORE_SKILLS" = pyStrip (joinLines ["Python", "SQL"])
    ∧ getSection (segmentLines
        (["Jane Doe"] ++ "Summary" :: (["Analyst."] ++ "Education" :: ["BSc"]))).sections
        "PROFESSIONAL_SUMMARY" = pyStrip (joinLines ["Analyst."])
    ∧ (segmentCV "Jane Doe\nSummary\nAnalyst.\nEducation\nBSc\nSummary\nAgain").order
        = ["CONTACT_INFO", "PROFESSIONAL_SUMMARY", "EDUCATION"] :=
  ⟨(claim_C4_segmentation "" "" "Skills" "" "" "CORE_SKILLS" "" ["Jane Doe"] []
      ["Python", "SQL"]).2.2.1 ⟨by decide, by decide⟩,
   (claim_C4_segmentation "" "" "Summary" "Education" "" "PROFESSIONAL_SUMMARY"
      "EDUCATION" ["Jane Doe"] ["Analyst."] ["BSc"]).2.2.2.1
     ⟨by decide, by decide, by decide, by decide, by decide⟩,
   ((claim_C4_segmentation "Jane Doe\nSummary\nAnalyst.\nEducation\nBSc\nSummary\nAgain"
      "" "" "" "" "" "" [] [] []).2.2.2.2.2.2.2).trans (by decide)⟩

/-! ## The multi-provider failover orchestrator

`app.py` calls `generate_tailored_resume_data(…, start_provider_index=…)` and
cycles `st.session_state.provider_index` modulo 5, but the module defining the
dispatcher is not among the sources; the definitions below are modelled from
the specification (§4.2 Failover Orchestrator). -/

/-- Modelled from the spec: one registered provider client of the failover
orchestrator (the module defining it is not among the sources): a name and a
call returning generated text or raising. -/
structure Provider where
  name : String
  call : String → Bool → ModelResult

/-- Modelled from the spec: acceptance of one provider response — a raised
error fails over, and a returned text is also rejected when it contains the
literal marker substring `"Error:"`. -/
def acceptResponse : ModelResult → Option String
  | .raised _ => none
  | .ok text => if containsSubStr text "Error:" then none else some text

/-- Modelled from the spec: the call order is the registry rotated so that
`start_index` becomes the first attempted provider, with wraparound. -/
def rotateRegistry (registry : List Provider) (start_index : Nat) : List Provider :=
  registry.drop (start_index % registry.length)
    ++ registry.take (start_index % registry.length)

/-- Modelled from the spec: the sentinel error string returned (not raised)
when every provider is exhausted. -/
def allProvidersFailedSentinel : String :=
  "Error: All AI providers are currently unavailable. Please try again later."

/-- Modelled from the spec: the sequential attempt loop, also recording the
names of the providers attempted. -/
def dispatchGo (prompt : String) (json_mode : Bool) :
    List Provider → List String → String × List String
  | [], attempted => (allProvidersFailedSentinel, attempted)
  | p :: ps, attempted =>
    match acceptResponse (p.call prompt json_mode) with
    | some text => (text, attempted ++ [p.name])
    | none => dispatchGo prompt json_mode ps (attempted ++ [p.name])

/-- Modelled from the spec: `dispatch(prompt, json_mode, start_index)`. -/
def dispatch (registry : List Provider) (prompt : String) (json_mode : Bool)
    (start_index : Nat) : String × List String :=
  dispatchGo prompt json_mode (rotateRegistry registry start_index) []

theorem dispatchGo_all_fail (prompt : String) (json_mode : Bool)
    (ps : List Provider) (attempted : List String)
    (h : ∀ p ∈ ps, acceptResponse (p.call prompt json_mode) = none) :
    dispatchGo prompt json_mode ps attempted
      = (allProvidersFailedSentinel, attempted ++ ps.map Provider.name) := by
  induction ps generalizing attempted with
  | nil => simp [dispatchGo]
  | cons p ps ih =>
    have hp := h p (List.mem_cons_self p ps)
    rw [dispatchGo, hp, ih _ (fun q hq => h q (List.mem_cons.mpr (Or.inr hq)))]
    simp

theorem rotateRegistry_perm (registry : List Provider) (start_index : Nat) :
    (rotateRegistry registry start_index).Perm registry := by
  unfold rotateRegistry
  exact (List.perm_append_comm).trans
    (by rw [List.take_append_drop])

/-- **C1.** (spec-modelled) For every prompt, `json_mode` flag and
`start_index`, if every registered provider fails (raises, or returns text
containing `"Error:"`), `dispatch` returns a string beginning with `"Error:"`
and has attempted exactly the providers of the registry, each once, in
registry order rotated so that `start_index` is first (with wraparound). -/
theorem claim_C1_dispatch_all_fail (registry : List Provider) (prompt : String)
    (json_mode : Bool) (start_index : Nat)
    (h : ∀ p ∈ registry, acceptResponse (p.call prompt json_mode) = none) :
    startsWithStr (dispatch registry prompt json_mode start_index).1 "Error:" = true
    ∧ (dispatch registry prompt json_mode start_index).2
        = (rotateRegistry registry start_index).map Provider.name
    ∧ ((dispatch registry prompt json_mode start_index).2).Perm
        (registry.map Provider.name) := by
  have hrot : ∀ p ∈ rotateRegistry registry start_index,
      acceptResponse (p.call prompt json_mode) = none :=
    fun p hp => h p ((rotateRegistry_perm registry start_index).mem_iff.mp hp)
  have hgo := dispatchGo_all_fail prompt json_mode
    (rotateRegistry registry start_index) [] hrot
  unfold dispatch
  rw [hgo]
  refine ⟨?_, by simp, ?_⟩
  · show startsWithStr allProvidersFailedSentinel "Error:" = true
    decide
  · simpa using (rotateRegistry_perm registry start_index).map Provider.name

/-- Witness for C1: five providers, all failing (raised errors or textual
`"Error:"` bodies), attempted in rotated order from index 2. -/
theorem claim_C1_witness :
    startsWithStr (dispatch
        [⟨"groq", fun _ _ => ModelResult.raised "timeout"⟩,
         ⟨"gemini", fun _ _ => ModelResult.ok "Error: quota exceeded"⟩,
         ⟨"cohere", fun _ _ => ModelResult.raised "503"⟩,
         ⟨"fireworks", fun _ _ => ModelResult.ok "Error: bad key"⟩,
         ⟨"huggingface", fun _ _ => ModelResult.raised "network"⟩]
        "prompt" true 2).1 "Error:" = true
    ∧ (dispatch
        [⟨"groq", fun _ _ => ModelResult.raised "timeout"⟩,
         ⟨"gemini", fun _ _ => ModelResult.ok "Error: quota exceeded"⟩,
         ⟨"cohere", fun _ _ => ModelResult.raised "503"⟩,
         ⟨"fireworks", fun _ _ => ModelResult.ok "Error: bad key"⟩,
         ⟨"huggingface", fun _ _ => ModelResult.raised "network"⟩]
        "prompt" true 2).2
      = ["cohere", "fireworks", "huggingface", "groq", "gemini"] := by
  have h := claim_C1_dispatch_all_fail
    [⟨"groq", fun _ _ => ModelResult.raised "timeout"⟩,
     ⟨"gemini", fun _ _ => ModelResult.ok "Error: quota exceeded"⟩,
     ⟨"cohere", fun _ _ => ModelResult.raised "503"⟩,
     ⟨"fireworks", fun _ _ => ModelResult.ok "Error: bad key"⟩,
     ⟨"huggingface", fun _ _ => ModelResult.raised "network"⟩]
    "prompt" true 2 (by decide)
  exact ⟨h.1, by rw [h.2.1]; decide⟩

/-! ## The fixed-line response extractor

The spec's Response Parser (§4.4) includes a fixed-line strategy used by the
per-employer tailoring variant, whose defining module is not among the
sources. -/

/-- Modelled from the spec: the non-empty, trimmed lines of a raw model
response. -/
def nonEmptyTrimmedLines (raw : String) : List String :=
  ((linesOfStr raw).map pyStrip).filter (fun l => l != "")

/-- Modelled from the spec: strip a leading bullet glyph `•` from a content
line. -/
def stripBulletGlyph (l : String) : String :=
  if startsWithStr l "•" then pyStrip (dropStr l 1) else l

/-- A parsed role: title and bullet list. -/
structure ParsedRole where
  role : String
  bullets : List String
deriving DecidableEq

/-- Modelled from the spec: fixed-line extraction — exactly 4 non-empty
trimmed lines give `{role: line1, bullets: [line2, line3, line4]}` with
leading bullet glyphs stripped; any other count falls back deterministically
to the unchanged original title and the first 3 original bullets, and never
raises. -/
def parseFixedLines (raw original_title : String) (original_bullets : List String) :
    ParsedRole :=
  match nonEmptyTrimmedLines raw with
  | [l1, l2, l3, l4] =>
    ⟨l1, [stripBulletGlyph l2, stripBulletGlyph l3, stripBulletGlyph l4]⟩
  | _ => ⟨original_title, original_bullets.take 3⟩

/-- **C5.** (spec-modelled) Fixed-line parsing: exactly 4 non-empty trimmed
lines yield `{role: line1, bullets: [line2, line3, line4]}` with leading
bullet glyphs stripped; any other line count yields the deterministic
fallback (unchanged original title, first 3 original bullets). -/
theorem claim_C5_fixed_line_parse (raw t : String) (bs : List String)
    (l1 l2 l3 l4 : String) :
    (nonEmptyTrimmedLines raw = [l1, l2, l3, l4] →
      parseFixedLines raw t bs
        = ⟨l1, [stripBulletGlyph l2, stripBulletGlyph l3, stripBulletGlyph l4]⟩)
    ∧ ((nonEmptyTrimmedLines raw).length ≠ 4 →
      parseFixedLines raw t bs = ⟨t, bs.take 3⟩) := by
  constructor
  · intro h
    unfold parseFixedLines
    rw [h]
  · intro h
    unfold parseFixedLines
    rcases hL : nonEmptyTrimmedLines raw with
      _ | ⟨a, _ | ⟨b, _ | ⟨c, _ | ⟨d, _ | ⟨e, rest⟩⟩⟩⟩⟩
    · rfl
    · rfl
    · rfl
    · rfl
    · exact absurd (by rw [hL]; rfl) h
    · rfl

/-- Witness for C5: a 4-line response is parsed, a 2-line response falls
back. -/
theorem claim_C5_witness :
    parseFixedLines "Analyst\n• Did A\n• Did B\n• Did C" "T" ["o1", "o2", "o3", "o4"]
      = ⟨"Analyst", [stripBulletGlyph "• Did A", stripBulletGlyph "• Did B",
          stripBulletGlyph "• Did C"]⟩
    ∧ parseFixedLines "only\ntwo lines" "T" ["o1", "o2", "o3", "o4"]
      = ⟨"T", ["o1", "o2", "o3", "o4"].take 3⟩ :=
  ⟨(claim_C5_fixed_line_parse "Analyst\n• Did A\n• Did B\n• Did C" "T"
      ["o1", "o2", "o3", "o4"] "Analyst" "• Did A" "• Did B" "• Did C").1 (by decide),
   (claim_C5_fixed_line_parse "only\ntwo lines" "T"
      ["o1", "o2", "o3", "o4"] "" "" "" "").2 (by decide)⟩

/-! ## `utils.py` — upload text extraction

`extract_text_from_docx` / `extract_text_from_pdf` wrap the `python-docx` and
`pdfplumber` libraries.  The libraries are modelled by their outcome on the
given stream: a successful parse (paragraph texts / page texts) or a raised
exception; Python's exception classes become constructors of `PyExc`. -/

/-- A raised Python exception, by class: `ValueError`, `zipfile.BadZipFile`,
or any other class. -/
inductive PyExc where
  | valueError (msg : String)
  | badZipFile (msg : String)
  | other (msg : String)
deriving DecidableEq

/-- Python `str(e)`. -/
def excMsg : PyExc → String
  | .valueError m => m
  | .badZipFile m => m
  | .other m => m

/-- `extract_text_from_docx` of `utils.py`: join the document's paragraph
texts with newlines; on an exception whose text contains
`"Zipfile is not a zip file"` raise `ValueError("Invalid or corrupted .docx
file.")`, otherwise re-raise the original exception (`raise e`). -/
def extract_text_from_docx (docLib : Except PyExc (List String)) :
    Except PyExc String :=
  match docLib with
  | .ok paras => .ok (joinLines paras)
  | .error e =>
    if containsSubStr (excMsg e) "Zipfile is not a zip file" then
      .error (.valueError "Invalid or corrupted .docx file.")
    else .error e

/-- What `docx.Document` (via Python's `zipfile`) raises on a byte stream
whose header is not a ZIP archive, e.g. `BytesIO(b"Not a real DOCX")` as in
the repo's own `test_malformed_inputs`: `zipfile.BadZipFile` with the message
`"File is not a zip file"`. -/
def docxLibOnCorrupt : Except PyExc (List String) :=
  .error (.badZipFile "File is not a zip file")

/-- `extract_text_from_pdf` of `utils.py`: join the truthy page texts with
newlines; wrap any exception into
`ValueError(f"Could not process PDF: {e}")`. -/
def extract_text_from_pdf (pdfLib : Except PyExc (List (Option String))) :
    Except PyExc String :=
  match pdfLib with
  | .ok pages => .ok (joinLines ((pages.filterMap id).filter (fun t => t != "")))
  | .error e => .error (.valueError ("Could not process PDF: " ++ excMsg e))

/-- **C8** (code bug). On a corrupted `.docx` upload the code re-raises the
library's `BadZipFile` instead of the intended `ValueError`: its message
check looks for `"Zipfile is not a zip file"`, but the library's message is
`"File is not a zip file"`, so the conversion branch never fires — contradicting
the repo's own test, which expects a `ValueError`.  The `.pdf` path does
convert every failure to a `ValueError`. -/
theorem claim_C8_docx_exception (msg : String) :
    extract_text_from_docx docxLibOnCorrupt
        = .error (.badZipFile "File is not a zip file")
    ∧ extract_text_from_docx docxLibOnCorrupt ≠ .error (.valueError msg)
    ∧ extract_text_from_pdf (.error (.other "bad header"))
        = .error (.valueError "Could not process PDF: bad header") := by
  refine ⟨rfl, ?_, rfl⟩
  intro h
  have h' : (Except.error (PyExc.badZipFile "File is not a zip file") :
      Except PyExc String) = Except.error (PyExc.valueError msg) := h
  injection h' with h2
  exact PyExc.noConfusion h2

/-- Witness for C8 at a concrete message. -/
theorem claim_C8_witness :
    extract_text_from_docx docxLibOnCorrupt
        = .error (.badZipFile "File is not a zip file")
    ∧ extract_text_from_docx docxLibOnCorrupt
        ≠ .error (.valueError "Invalid or corrupted .docx file.")
    ∧ extract_text_from_pdf (.error (.other "bad header"))
        = .error (.valueError "Could not process PDF: bad header") :=
  claim_C8_docx_exception "Invalid or corrupted .docx file."

/-! ## `ai_agent.py` — `generate_interview_cheatsheet` and the shape of the
failure strings returned to the caller -/

/-- The cheatsheet prompt of `generate_interview_cheatsheet` (fixed text with
the job description and resume text interpolated). -/
def cheatsheetPrompt (resume_text job_description : String) : String :=
  "\n    You are an expert career coach. Your task is to create a single, comprehensive, and dummy-proof interview preparation document. This document will be downloaded directly by the user.\n\n    The final output MUST start with the user's job description, followed by a specific introductory sentence, and then a detailed breakdown. Follow the structure below EXACTLY using Markdown formatting.\n\n    ---\n    **START OF DOCUMENT**\n    ---\n\n    **Job Description:**\n    ```\n    " ++
  job_description ++
  "\n    ```\n\n    ---\n\n    According to the resume you applied with, this is all you need to adequately prepare for the interview.\n\n    ---\n    ## 📝 Cheatsheet & Preparation Guide\n\n    ### 1. Deconstructing the Job Description\n    * **Core Responsibilities:** [Break down the key duties from the job description and explain what they mean in simple terms.]\n    * **Key Skills They're Looking For:** [List the most important skills (e.g., \"Power BI\", \"Stakeholder Management\") and briefly define each one.]\n    * **Company's Probable Goal with this Hire:** [Infer the company's main objective for hiring someone in this role. E.g., \"They need someone to organize their data and create clear reports so leaders can make better decisions.\"]\n\n    ### 2. Connecting Your Resume to the Job\n    [For each major experience or section on the user's resume, create a \"You Claimed -> This is How to Talk About It\" section. Be very detailed and use the STAR method.]\n\n    **Resume Content to Analyze:**\n    ```\n    " ++
  resume_text ++
  "\n    ```\n\n    **Example of How to Structure Your Analysis:**\n    * **Resume Claim:** \"Developed Power BI dashboards to track key performance indicators.\"\n    * **How to Explain It (Using the STAR Method - Situation, Task, Action, Result):**\n        * **Situation:** \"Start by describing the 'before' state. For example: 'My previous team was tracking sales data using complex Excel sheets that were prone to errors and hard to read. There was no single source of truth.'\"\n        * **Task:** \"Explain your specific goal. 'My manager tasked me with creating a centralized, automated, and easy-to-understand dashboard for the leadership team.'\"\n        * **Action:** \"Detail the steps you took. 'I gathered requirements from the sales managers to identify the most critical KPIs. I then used Power Query to clean and transform data from our SQL database and designed several interactive charts in Power BI showing sales trends, performance by region, and top products.'\"\n        * **Result:** \"Quantify your success. 'The new dashboard reduced report generation time by 80% and gave the leadership team real-time insights. This helped them identify an underperforming product line three weeks earlier than usual, allowing for a swift strategy change.'\"\n\n    [Now, apply this same detailed STAR method breakdown to the other significant points in the user's actual resume provided above.]\n\n    ### 3. Answering Potential Tough Questions\n    * **\"Tell me about yourself.\"**: [Provide a template answer that connects the user's professional summary to the job description's top 2-3 requirements.]\n    * **\"Why are you interested in this role?\"**: [Coach the user on how to align their skills with the company's needs identified in step 1. Advise them to mention specific aspects of the job description.]\n    * **\"What is your biggest weakness?\"**: [Suggest a strategy for answering honestly but positively, e.g., \"I used to get caught up in the minor details of a project, but I've learned to focus on the bigger picture and prioritize for timely delivery without sacrificing quality.\"]\n    * **Questions for THEM:** [Provide 3-4 insightful questions the user can ask the interviewer, such as \"What does a typical day in this role look like?\" or \"How does this position contribute to the broader goals of the department?\"]\n\n    ---\n    **END OF DOCUMENT**\n    ---\n    "

/-- `generate_interview_cheatsheet` of `ai_agent.py`: missing inputs give the
`"Error: …"` string; a raised model call gives
`f"Error generating cheatsheet: {e}"`; success gives `response.text.strip()`.
`if not resume_text or not job_description` is emptiness of either string. -/
def generate_interview_cheatsheet (resume_text job_description api_key : String)
    (model : String → ModelResult) : String :=
  if resume_text = "" ∨ job_description = "" then
    "Error: Resume or Job Description is missing."
  else
    match model (cheatsheetPrompt resume_text job_description) with
    | .ok text => pyStrip text
    | .raised msg => "Error generating cheatsheet: " ++ msg

theorem data_append (a b : String) : (a ++ b).data = a.data ++ b.data := by
  cases a
  cases b
  rfl

theorem isPrefixChars_append (p l m : List Char) (h : isPrefixChars p l = true) :
    isPrefixChars p (l ++ m) = true := by
  induction p generalizing l with
  | nil => rfl
  | cons c cs ih =>
    cases l with
    | nil => cases h
    | cons a as =>
      simp only [isPrefixChars, Bool.and_eq_true] at h
      simp only [List.cons_append, isPrefixChars, Bool.and_eq_true]
      exact ⟨h.1, ih as h.2⟩

theorem startsWithStr_append_left (s t pre : String)
    (h : startsWithStr s pre = true) : startsWithStr (s ++ t) pre = true := by
  unfold startsWithStr at h ⊢
  rw [data_append]
  exact isPrefixChars_append _ _ _ h

/-- **C6 counterexample.** The exception branch of `tailor_section` returns a
string that does not begin with `"Error:"` — it begins with
`"Error tailoring "` — so the claim as stated is false for the
section-tailoring operation. -/
theorem claim_C6_counterexample :
    startsWithStr
      ((tailor_section "Core Skills" "content" "jd" "key"
        (fun _ => ModelResult.raised "quota exceeded")).1) "Error:" = false := by
  decide

/-- **C6 (amended).** Every terminal generation-failure value returned to the
caller is an ordinary string beginning with `"Error"` — not a raised
exception: the missing-input branch of the cheatsheet and the modelled
dispatcher sentinel begin with `"Error:"`, while the exception branches of
`tailor_section` and `generate_interview_cheatsheet` begin with
`"Error tailoring "` and `"Error generating cheatsheet: "` respectively. -/
theorem claim_C6_error_string_failures
    (section_name content jd api_key msg rt jd2 : String)
    (hc : pyStrip content ≠ "") (hrt : rt ≠ "") (hjd : jd2 ≠ "") :
    startsWithStr
        ((tailor_section section_name content jd api_key
          (fun _ => ModelResult.raised msg)).1) "Error" = true
    ∧ generate_interview_cheatsheet "" jd2 api_key (fun _ => ModelResult.raised msg)
        = "Error: Resume or Job Description is missing."
    ∧ startsWithStr
        (generate_interview_cheatsheet rt jd2 api_key (fun _ => ModelResult.raised msg))
        "Error" = true
    ∧ startsWithStr allProvidersFailedSentinel "Error:" = true := by
  refine ⟨?_, rfl, ?_, by decide⟩
  · unfold tailor_section
    rw [if_neg hc]
    show startsWithStr ("Error tailoring " ++ section_name ++ ": " ++ msg) "Error" = true
    exact startsWithStr_append_left _ _ _
      (startsWithStr_append_left _ _ _
        (startsWithStr_append_left _ _ _ (by decide)))
  · unfold generate_interview_cheatsheet
    rw [if_neg (not_or.mpr ⟨hrt, hjd⟩)]
    show startsWithStr ("Error generating cheatsheet: " ++ msg) "Error" = true
    exact startsWithStr_append_left _ _ _ (by decide)

/-- Witness for the amended C6 at concrete inputs. -/
theorem claim_C6_witness :
    startsWithStr
        ((tailor_section "Core Skills" "content" "jd" "key"
          (fun _ => ModelResult.raised "boom")).1) "Error" = true
    ∧ generate_interview_cheatsheet "" "job desc" "key"
        (fun _ => ModelResult.raised "boom")
        = "Error: Resume or Job Description is missing."
    ∧ startsWithStr
        (generate_interview_cheatsheet "resume text" "job desc" "key"
          (fun _ => ModelResult.raised "boom")) "Error" = true
    ∧ startsWithStr allProvidersFailedSentinel "Error:" = true :=
  claim_C6_error_string_failures "Core Skills" "content" "jd" "key" "boom"
    "resume text" "job desc" (by decide) (by decide) (by decide)

/-! ## `config.py` and `prompts.py` — static résumé facts and the cover
letter prompt -/

/-- One entry of `MASTER_RESUME_DATA["EDUCATION"]`. -/
structure EducationEntry where
  institution : String
  location : String
  degree : String
  dates : String
  courses : String

/-- `MASTER_RESUME_DATA["EDUCATION"]` of `config.py`. -/
def EDUCATION : List EducationEntry :=
  [⟨"University of North Texas", "Denton, Texas",
    "Master of Advanced Data Analytics (Part-time)",
    "Graduation Expected: Dec 2026",
    "Relevant Courses: Data Visualization, Prescriptive Analytics, Predictive Analytics"⟩,
   ⟨"Covenant University", "Ogun, Nigeria",
    "B.S in Petroleum Engineering",
    "July 2019",
    "Relevant Course: Leadership Development and Project Management"⟩]

/-- One employer entry of `MASTER_RESUME_DATA["RELEVANT_EXPERIENCE_STATIC"]`. -/
structure ExperienceEntry where
  employer : String
  location : String
  dates : String
  original_bullets : List String

/-- `MASTER_RESUME_DATA["RELEVANT_EXPERIENCE_STATIC"]` of `config.py`, in
dictionary (insertion) order. -/
def RELEVANT_EXPERIENCE_STATIC : List ExperienceEntry :=
  [⟨"Conduent", "Remote", "Nov 2024 – Present",
    ["Designed and deployed interactive Power BI dashboards to track document processing performance and operational KPIs.",
     "Extracted and analyzed structured data using SQL to identify error trends and validate document workflows.",
     "Performed trend and gap analysis on over 10,000+ document records to optimize workload distribution.",
     "Collaborated with IT and operations teams to automate weekly and monthly reporting processes."]⟩,
   ⟨"Itech Data Consulting", "Frederick, Maryland", "Sep 2022 – Oct 2024",
    ["Translated business needs into functional requirements and detailed user stories.",
     "Designed and maintained real-time Power BI dashboards to track KPIs and business performance across teams.",
     "Streamlined reporting processes by 40% through automation of SQL queries."]⟩,
   ⟨"Mangrove & Partners Ltd", "Abuja, Nigeria", "Jan 2020 – Aug 2022",
    ["Led workshops with business stakeholders to identify and address key business challenges.",
     "Developed and maintained Power BI dashboards to visualize operational and financial KPIs.",
     "Conducted data analysis that resulted in a 15% reduction in operational costs.",
     "Managed project schedules and budgets to ensure on-time delivery."]⟩]

/-- Fuelled splitter on a multi-character separator (Python `str.split(sep)`). -/
def splitSeqAux (sep : List Char) : Nat → List Char → List Char → List (List Char)
  | _, [], acc => [acc.reverse]
  | 0, rest, acc => [acc.reverse ++ rest]
  | fuel + 1, c :: rest, acc =>
    if isPrefixChars sep (c :: rest) then
      acc.reverse :: splitSeqAux sep fuel ((c :: rest).drop sep.length) []
    else splitSeqAux sep fuel rest (c :: acc)

/-- Python `s.split(sep)` for a non-empty separator string. -/
def splitOnStr (s sep : String) : List String :=
  if sep.data = [] then [s]
  else (splitSeqAux sep.data s.data.length s.data []).map String.mk

/-- Python slicing `s[:n]`. -/
def takeStr (s : String) (n : Nat) : String :=
  String.mk (s.data.take n)

/-- The year `datetime.strptime(f"01 {tok}", "%d %b %Y").year` reads off a
`"Mon YYYY"` token: its final space-separated component as a number. -/
def lastYearOf (s : String) : Nat :=
  natOfDigitStr (((splitCharList ' ' s.data).map String.mk).getLastD "")

/-- The `dates` string of a named static employer. -/
def employerDates (name : String) : String :=
  ((RELEVANT_EXPERIENCE_STATIC.find? fun e => e.employer == name).map
    ExperienceEntry.dates).getD ""

/-- The start year of a named static employer:
`dates.split(' – ')[0]` parsed as `"%d %b %Y"`. -/
def startYearOfEmployer (name : String) : Nat :=
  lastYearOf ((splitOnStr (employerDates name) " – ").headD "")

/-- `experience_years` in `get_cover_letter_prompt`:
`datetime.now().year - start_year - 1`, computed from the hard-coded
Mangrove & Partners start date.  The current year is a parameter (the Python
reads the clock). -/
def experienceYears (currentYear : Nat) : Nat :=
  currentYear - startYearOfEmployer "Mangrove & Partners Ltd" - 1

/-- The earliest start year among all static employers. -/
def earliestStartYear : Nat :=
  ((RELEVANT_EXPERIENCE_STATIC.map fun e =>
    lastYearOf ((splitOnStr e.dates " – ").headD "")).min?).getD 0

/-- The text of the cover-letter prompt before the candidate name. -/
def coverLetterLead : String :=
  "\n    Compose a professional cover letter (4 paragraphs) with:\n    \n    CANDIDATE PROFILE:\n    - Name: "

/-- The text of the cover-letter prompt after the truncated job description. -/
def coverLetterTail : String :=
  "...\"\n    \n    STRUCTURE:\n    1. Opening: Concise value proposition\n    2. Qualifications: Top 3 relevant strengths\n    3. Company Fit: Alignment with organization\n    4. Closing: Confident call to action\n    \n    REQUIREMENTS:\n    - 180-220 words total\n    - Professional tone\n    - Incorporate resume achievements\n    - No placeholders\n    \n    Begin Cover Letter Content:\n    "

/-- `get_cover_letter_prompt` of `prompts.py`.  The Python signature also
takes `final_resume_data`, which the body never uses; the candidate name
comes from the environment-loaded `MASTER_RESUME_DATA['CONTACT_INFO']` and is
a parameter here, as is the current year. -/
def get_cover_letter_prompt (resume_name job_description job_title company_name : String)
    (currentYear : Nat) : String :=
  coverLetterLead ++
  (resume_name ++
  ("\n    - Education: Pursuing " ++
  ((EDUCATION.headD ⟨"", "", "", "", ""⟩).degree ++
  (" (Expected " ++
  (((splitOnStr (EDUCATION.headD ⟨"", "", "", "", ""⟩).dates ": ").getD 1 "") ++
  (")\n    " ++
  (("- Experience: " ++ toString (experienceYears currentYear)) ++
  (" years in relevant roles" ++
  ("\n    \n    JOB TARGET:\n    - Position: " ++
  (job_title ++
  (" at " ++
  (company_name ++
  ("\n    - Key Requirements: \"" ++
  (takeStr job_description 600 ++
  coverLetterTail))))))))))))))

/-- `sub` occurs as a contiguous substring of `s`. -/
def ContainsSub (s sub : String) : Prop :=
  ∃ l₁ l₂, s.data = l₁ ++ (sub.data ++ l₂)

theorem containsSub_append_right (s t sub : String) (h : ContainsSub t sub) :
    ContainsSub (s ++ t) sub := by
  obtain ⟨l₁, l₂, he⟩ := h
  exact ⟨s.data ++ l₁, l₂, by rw [data_append, he, List.append_assoc]⟩

theorem containsSub_append_left (s t sub : String) (h : ContainsSub s sub) :
    ContainsSub (s ++ t) sub := by
  obtain ⟨l₁, l₂, he⟩ := h
  exact ⟨l₁, l₂ ++ t.data, by rw [data_append, he]; simp [List.append_assoc]⟩

theorem containsSub_glue (p q rest : String) :
    ContainsSub (p ++ (q ++ rest)) (p ++ q) :=
  ⟨[], rest.data, by simp [data_append, List.append_assoc]⟩

theorem isPrefixChars_exists (p l : List Char) (h : isPrefixChars p l = true) :
    ∃ m, l = p ++ m := by
  induction p generalizing l with
  | nil => exact ⟨l, rfl⟩
  | cons c cs ih =>
    cases l with
    | nil => cases h
    | cons a as =>
      simp only [isPrefixChars, Bool.and_eq_true] at h
      obtain ⟨m, hm⟩ := ih as h.2
      obtain rfl : c = a := by simpa using h.1
      exact ⟨m, by rw [List.cons_append, ← hm]⟩

theorem containsSub_of_chars (s sub : String)
    (h : containsSubChars sub.data s.data = true) : ContainsSub s sub := by
  suffices hgen : ∀ l : List Char, containsSubChars sub.data l = true →
      ∃ l₁ l₂, l = l₁ ++ (sub.data ++ l₂) by
    exact hgen s.data h
  intro l hl
  induction l with
  | nil =>
    cases hp : sub.data with
    | nil => exact ⟨[], [], by simp [hp]⟩
    | cons c cs => rw [hp] at hl; cases hl
  | cons a as ih =>
    simp only [containsSubChars, Bool.or_eq_true] at hl
    rcases hl with hl | hl
    · obtain ⟨m, hm⟩ := isPrefixChars_exists _ _ hl
      exact ⟨[], m, by simpa using hm⟩
    · obtain ⟨l₁, l₂, he⟩ := ih hl
      exact ⟨a :: l₁, l₂, by rw [List.cons_append, he]⟩

/-- **C7 counterexample.** At a concrete input the cover-letter prompt does
not contain a `"180-300"` word-count instruction: it instructs
`"180-220 words total"`, so the claim's 180–300 range is false on the code. -/
theorem claim_C7_counterexample :
    containsSubStr
        (get_cover_letter_prompt "Aye Uweja" "We need an analyst" "Data Analyst"
          "Acme" 2026) "180-300" = false
    ∧ containsSubStr
        (get_cover_letter_prompt "Aye Uweja" "We need an analyst" "Data Analyst"
          "Acme" 2026) "180-220 words total" = true := by
  constructor
  · decide
  · decide

/-- **C7 (amended).** For every tailored-skills summary, job description,
title and company name, the cover-letter prompt instructs a 4-paragraph
letter of 180–220 words, and the candidate tenure it states is
`current year − earliest start year − 1`, computed from the hard-coded
Mangrove & Partners start date — which is the earliest static experience
start date. -/
theorem claim_C7_cover_letter_prompt
    (resume_name job_description job_title company_name : String)
    (currentYear : Nat) :
    ContainsSub (get_cover_letter_prompt resume_name job_description job_title
        company_name currentYear) "(4 paragraphs)"
    ∧ ContainsSub (get_cover_letter_prompt resume_name job_description job_title
        company_name currentYear) "180-220 words total"
    ∧ ContainsSub (get_cover_letter_prompt resume_name job_description job_title
        company_name currentYear)
        ("- Experience: " ++ toString (experienceYears currentYear)
          ++ " years in relevant roles")
    ∧ experienceYears currentYear = currentYear - earliestStartYear - 1
    ∧ startYearOfEmployer "Mangrove & Partners Ltd" = earliestStartYear := by
  have hmin : startYearOfEmployer "Mangrove & Partners Ltd" = earliestStartYear := by
    decide
  refine ⟨?_, ?_, ?_, ?_, hmin⟩
  · unfold get_cover_letter_prompt
    exact containsSub_append_left _ _ _ (containsSub_of_chars _ _ (by decide))
  · unfold get_cover_letter_prompt
    apply containsSub_append_right
    apply containsSub_append_right
    apply containsSub_append_right
    apply containsSub_append_right
    apply containsSub_append_right
    apply containsSub_append_right
    apply containsSub_append_right
    apply containsSub_append_right
    apply containsSub_append_right
    apply containsSub_append_right
    apply containsSub_append_right
    apply containsSub_append_right
    apply containsSub_append_right
    apply containsSub_append_right
    apply containsSub_append_right
    exact containsSub_of_chars _ _ (by decide)
  · unfold get_cover_letter_prompt
    apply containsSub_append_right
    apply containsSub_append_right
    apply containsSub_append_right
    apply containsSub_append_right
    apply containsSub_append_right
    apply containsSub_append_right
    apply containsSub_append_right
    exact containsSub_glue _ _ _
  · unfold experienceYears
    rw [hmin]

/-! ## `prompts.py` `get_master_resume_prompt` and the modelled
`generate_tailored_resume_data` -/

/-- `list(MASTER_RESUME_DATA["RELEVANT_EXPERIENCE_STATIC"].keys())`. -/
def companiesList : List String :=
  RELEVANT_EXPERIENCE_STATIC.map ExperienceEntry.employer

/-- `get_master_resume_prompt` of `prompts.py` (the doubled braces of the
Python f-string are literal braces in the prompt text). -/
def get_master_resume_prompt (job_title job_description : String) : String :=
  "\n    Generate a complete, professional resume tailored for: " ++ job_title ++
  "\n    \n    Requirements:\n    1. ROLE TITLES:\n       - Create 3 distinct but related positions\n       - Example variations for " ++ job_title ++
  ":\n         - \"Data Analyst\", \"Business Intelligence Analyst\", \"Research Analyst\"\n         - \"Marketing Specialist\", \"Digital Strategist\", \"Content Manager\"\n       - No explicit seniority labels unless specified in description\n    \n    2. BULLET POINTS:\n       - 30-50 words each\n       - Show progressive skill development\n       - Include specific tools/technologies\n       - Quantify achievements\n       - Follow: [Action] using [Tool] resulting in [Metric]\n    \n    3. OUTPUT FORMAT:\n       - Strict JSON only\n       - No additional text or commentary\n       - Structure must exactly match:\n    \x7b\n      \"skills\": \x7b\n        \"technical\": \"comma, separated, hard, skills\",\n        \"soft\": \"comma, separated, soft, skills\"\n      \x7d,\n      \"experience\": \x7b\n        \"" ++ companiesList.getD 0 "" ++
  "\": \x7b\n          \"role\": \"Professional Title Variation 1\",\n          \"bullets\": [\n            \"Achievement statement 1\",\n            \"Achievement statement 2\",\n            \"Achievement statement 3\",\n            \"Achievement statement 4\"\n          ]\n        \x7d,\n        \"" ++ companiesList.getD 1 "" ++
  "\": \x7b\n          \"role\": \"Professional Title Variation 2\",\n          \"bullets\": [\n            \"Achievement statement 1\",\n            \"Achievement statement 2\",\n            \"Achievement statement 3\",\n            \"Achievement statement 4\"\n          ]\n        \x7d,\n        \"" ++ companiesList.getD 2 "" ++
  "\": \x7b\n          \"role\": \"Professional Title Variation 3\",\n          \"bullets\": [\n            \"Achievement statement 1\",\n            \"Achievement statement 2\",\n            \"Achievement statement 3\",\n            \"Achievement statement 4\"\n          ]\n        \x7d\n      \x7d\n    \x7d\n    \n    Job Description Excerpt:\n    \"" ++ takeStr job_description 2500 ++
  "...\"\n    \n    Begin JSON Resume Content:\n    "

/-- The tailored skills block `{technical, soft}`. -/
structure TailoredSkills where
  technical : String
  soft : String
deriving DecidableEq

/-- One tailored employer entry `{role, bullets}`. -/
structure RoleBullets where
  role : String
  bullets : List String
deriving DecidableEq

/-- A decoded resume JSON object: skills plus an employer-keyed experience
mapping. -/
structure DecodedResume where
  skills : TailoredSkills
  experience : List (String × RoleBullets)

/-- `GeneratedResumeData`: tailored content or an error marker, never both. -/
inductive GeneratedResumeData where
  | ok (skills : TailoredSkills) (experience : List (String × RoleBullets))
  | failed (msg : String)

/-- Dictionary lookup in a decoded experience mapping. -/
def lookupExperience (decoded : List (String × RoleBullets)) (employer : String) :
    Option RoleBullets :=
  (decoded.find? fun p => p.1 == employer).map Prod.snd

/-- The `original_bullets` of a static employer. -/
def originalBulletsOf (employer : String) : List String :=
  ((RELEVANT_EXPERIENCE_STATIC.find? fun e => e.employer == employer).map
    ExperienceEntry.original_bullets).getD []

/-- Modelled from the spec: the validation step of
`generate_tailored_resume_data` (its defining module is not among the
sources).  Per §3, `TailoredExperience` maps exactly the StaticResumeFacts
employers — keys are never invented — to a role and an ordered list of
exactly 3 bullets; per §4.4 a per-employer shortfall falls back
deterministically to the first 3 original bullets. -/
def normalizeExperience (decoded : List (String × RoleBullets)) :
    List (String × RoleBullets) :=
  companiesList.map fun employer =>
    (employer,
      match lookupExperience decoded employer with
      | some rb =>
        if 3 ≤ rb.bullets.length then ⟨rb.role, rb.bullets.take 3⟩
        else ⟨rb.role, (originalBulletsOf employer).take 3⟩
      | none => ⟨"Error", (originalBulletsOf employer).take 3⟩)

/-- Modelled from the spec: `generate_tailored_resume_data(job_description,
job_title, start_provider_index)` builds the master prompt, drives the
failover dispatcher in JSON mode and decodes the response; decoding is
abstracted into `modelJson` (returning `none` on failure, as the JSON
extractor does), and the decoded experience is validated. -/
def generate_tailored_resume_data (job_description job_title : String)
    (modelJson : String → Option DecodedResume) : GeneratedResumeData :=
  match modelJson (get_master_resume_prompt job_title job_description) with
  | none => .failed "Error: The AI failed to generate valid resume content."
  | some d => .ok d.skills (normalizeExperience d.experience)

theorem map_fst_keyed {β : Type} (f : String → β) (ls : List String) :
    (ls.map fun k => (k, f k)).map Prod.fst = ls := by
  induction ls with
  | nil => rfl
  | cons k ks ih => simpa using ih

theorem normalizeExperience_keys (decoded : List (String × RoleBullets)) :
    (normalizeExperience decoded).map Prod.fst = companiesList :=
  map_fst_keyed _ companiesList

theorem originalBullets_long : ∀ e ∈ companiesList,
    3 ≤ (originalBulletsOf e).length := by decide

theorem normalizeExperience_bullets (decoded : List (String × RoleBullets)) :
    ∀ p ∈ normalizeExperience decoded, p.2.bullets.length = 3 := by
  intro p hp
  unfold normalizeExperience at hp
  obtain ⟨employer, hemp, heq⟩ := List.mem_map.mp hp
  have horig : ((originalBulletsOf employer).take 3).length = 3 := by
    rw [List.length_take]
    exact Nat.min_eq_left (originalBullets_long employer hemp)
  subst heq
  cases hlk : lookupExperience decoded employer with
  | none => simpa [hlk] using horig
  | some rb =>
    by_cases hb : 3 ≤ rb.bullets.length
    · simp only [hlk, if_pos hb]
      rw [List.length_take]
      exact Nat.min_eq_left hb
    · simpa [hlk, if_neg hb] using horig

/-- **C2.** (spec-modelled) For every job description and target title,
whenever `generate_tailored_resume_data` succeeds, its experience mapping
contains exactly the employer keys of `RELEVANT_EXPERIENCE_STATIC` in order
— no key is invented — and every employer entry carries a role and exactly
3 bullets. -/
theorem claim_C2_experience_shape (job_description job_title : String)
    (modelJson : String → Option DecodedResume)
    (sk : TailoredSkills) (exps : List (String × RoleBullets))
    (h : generate_tailored_resume_data job_description job_title modelJson
      = .ok sk exps) :
    exps.map Prod.fst = companiesList
    ∧ ∀ p ∈ exps, p.2.bullets.length = 3 := by
  unfold generate_tailored_resume_data at h
  cases hm : modelJson (get_master_resume_prompt job_title job_description) with
  | none => rw [hm] at h; cases h
  | some d =>
    rw [hm] at h
    injection h with h1 h2
    subst h2
    exact ⟨normalizeExperience_keys d.experience,
      normalizeExperience_bullets d.experience⟩

/-- Witness for C2: a concrete decode with one short employer entry. -/
theorem claim_C2_witness :
    (normalizeExperience [("Conduent", ⟨"Data Analyst", ["a", "b", "c", "d"]⟩)]).map
        Prod.fst = companiesList
    ∧ ∀ p ∈ normalizeExperience [("Conduent", ⟨"Data Analyst", ["a", "b", "c", "d"]⟩)],
        p.2.bullets.length = 3 :=
  claim_C2_experience_shape "jd" "Data Analyst"
    (fun _ => some ⟨⟨"t", "s"⟩, [("Conduent", ⟨"Data Analyst", ["a", "b", "c", "d"]⟩)]⟩)
    ⟨"t", "s"⟩
    (normalizeExperience [("Conduent", ⟨"Data Analyst", ["a", "b", "c", "d"]⟩)])
    rfl

/-! ## `utils.py` `create_styled_docx` — section re-parsing of the final
markdown, and the re-assembly it consumes

`create_styled_docx` splits `final_markdown.strip().split('\n')` at the
first line starting with `"## "`: everything above is `CONTACT_INFO`, and
each following `"## "` heading opens a section whose body is flushed at the
next heading or at end of input. -/

/-- `line[3:].strip().upper().replace(' ', '_')` in `create_styled_docx`. -/
def headerKeyOf (line : String) : String :=
  replaceCharStr (upperStr (pyStrip (dropStr line 3))) ' ' '_'

/-- The `first_header_index` scan of `create_styled_docx`. -/
def firstHeaderIdx : List String → Option Nat
  | [] => none
  | l :: ls =>
    if startsWithStr l "## " then some 0
    else (firstHeaderIdx ls).map (· + 1)

/-- Flushing `(current_section_key, "\n".join(content).strip())`, skipped
while no heading has been seen. -/
def flushPart : Option String → List String → List (String × String)
  | none, _ => []
  | some k, buf => [(k, pyStrip (joinLines buf))]

/-- The section loop of `create_styled_docx` over the lines from the first
heading on, with the final flush. -/
def parseRun : List String → Option String → List String → List (String × String)
  | [], cur, buf => flushPart cur buf
  | l :: ls, cur, buf =>
    if startsWithStr l "## " then
      flushPart cur buf ++ parseRun ls (some (headerKeyOf l)) []
    else parseRun ls cur (buf ++ [l])

/-- `sections_in_order` as computed by `create_styled_docx` from the line
list of the markdown: the text above the first `"## "` heading is
`CONTACT_INFO` (unstripped when no heading exists at all, stripped
otherwise, as in the Python), then one entry per heading. -/
def parseSectionsLines (lines : List String) : List (String × String) :=
  match firstHeaderIdx lines with
  | none => [("CONTACT_INFO", joinLines lines)]
  | some i =>
    ("CONTACT_INFO", pyStrip (joinLines (lines.take i)))
      :: parseRun (lines.drop i) none []

/-- The section splitting of `create_styled_docx` on the markdown string
(`final_markdown.strip().split('\n')`). -/
def parseSections (final_markdown : String) : List (String × String) :=
  parseSectionsLines (linesOfStr (pyStrip final_markdown))

/-- The identity tailoring: every section's tailored content is its
segmented content unchanged (zero sections are modified). -/
def identityTailoring (seg : SegResult) : List (String × String) :=
  seg.order.map fun k => (k, getSection seg.sections k)

/-- Modelled from the spec: re-assembly of the tailored sections into the
final markdown consumed by `create_styled_docx` (§4.5: "Re-assembly must
reproduce SectionOrder exactly, with tailored content substituted in place
and empty sections omitted").  `CONTACT_INFO` is emitted without a heading —
the renderer attributes the text above the first `"## "` heading to it — and
every other section under its `"## KEY"` heading. -/
def reassembleLines (parts : List (String × String)) (order : List String) :
    List String :=
  order.flatMap fun k =>
    if getSection parts k = "" then []
    else if k = "CONTACT_INFO" then linesOfStr (getSection parts k)
    else ("## " ++ k) :: linesOfStr (getSection parts k)

/-- Modelled from the spec: the re-assembled markdown document. -/
def reassemble (parts : List (String × String)) (order : List String) : String :=
  joinLines (reassembleLines parts order)

/-! ### Round-trip lemmas for the line split/join and strip -/

theorem mk_data (s : String) : String.mk s.data = s := rfl

theorem joinLines_linesOfStr (s : String) : joinLines (linesOfStr s) = s := by
  unfold joinLines linesOfStr
  rw [List.map_map]
  have : (String.data ∘ String.mk) = id := rfl
  rw [this, List.map_id, joinCharList_splitCharList]

theorem splitCharList_joinCharList (c : Char) (gs : List (List Char))
    (hne : gs ≠ []) (hfree : ∀ g ∈ gs, c ∉ g) :
    splitCharList c (joinCharList c gs) = gs := by
  induction gs with
  | nil => exact absurd rfl hne
  | cons g gs ih =>
    cases gs with
    | nil =>
      show splitCharList c g = [g]
      exact splitCharList_no_sep c g (hfree g (List.mem_cons_self g []))
    | cons g' gs' =>
      show splitCharList c (g ++ c :: joinCharList c (g' :: gs')) = _
      rw [splitCharList_append_cons c _ _ (hfree g (List.mem_cons_self g _)),
        ih (by simp) (fun x hx => hfree x (List.mem_cons.mpr (Or.inr hx)))]

theorem linesOfStr_joinLines (ls : List String) (hne : ls ≠ [])
    (hfree : ∀ l ∈ ls, '\n' ∉ l.data) :
    linesOfStr (joinLines ls) = ls := by
  unfold linesOfStr joinLines
  show (splitCharList '\n' (String.mk (joinCharList '\n' (ls.map String.data))).data).map
      String.mk = ls
  rw [show (String.mk (joinCharList '\n' (ls.map String.data))).data
      = joinCharList '\n' (ls.map String.data) from rfl]
  rw [splitCharList_joinCharList '\n' (ls.map String.data)
    (by simpa using hne)
    (by intro g hg
        obtain ⟨l, hl, rfl⟩ := List.mem_map.mp hg
        exact hfree l hl)]
  rw [List.map_map]
  have : (String.mk ∘ String.data) = id := by
    funext s
    exact mk_data s
  rw [this, List.map_id]

theorem pyStrip_eq_self (s : String)
    (hh : ∀ a, s.data.head? = some a → wsChar a = false)
    (hl : ∀ a, s.data.getLast? = some a → wsChar a = false) :
    pyStrip s = s := by
  unfold pyStrip
  rw [stripChars_of_bounds s.data hh hl]

theorem pyStrip_head_not_ws (s : String) {a : Char}
    (hs : pyStrip s = s) (h : s.data.head? = some a) : wsChar a = false := by
  apply head?_stripChars s.data
  show (stripChars s.data).head? = some a
  have hd : stripChars s.data = (pyStrip s).data := rfl
  rw [hd, hs]
  exact h

theorem pyStrip_getLast_not_ws (s : String) {a : Char}
    (hs : pyStrip s = s) (h : s.data.getLast? = some a) : wsChar a = false := by
  have : (stripChars s.data).getLast? = some a := by
    have hd : stripChars s.data = (pyStrip s).data := rfl
    rw [hd, hs]
    exact h
  exact getLast?_stripChars _ this

/-! ### Every stored section content is strip-stable -/

theorem mem_setSection (m : List (String × String)) (k v : String)
    (kv : String × String) (h : kv ∈ setSection m k v) :
    kv = (k, v) ∨ kv ∈ m := by
  induction m with
  | nil =>
    simp [setSection] at h
    exact Or.inl h
  | cons kv' rest ih =>
    obtain ⟨k', v'⟩ := kv'
    by_cases hk : k' = k
    · rw [setSection, if_pos hk] at h
      rcases List.mem_cons.mp h with h | h
      · exact Or.inl h
      · exact Or.inr (List.mem_cons.mpr (Or.inr h))
    · rw [setSection, if_neg hk] at h
      rcases List.mem_cons.mp h with h | h
      · exact Or.inr (List.mem_cons.mpr (Or.inl h))
      · rcases ih h with h | h
        · exact Or.inl h
        · exact Or.inr (List.mem_cons.mpr (Or.inr h))

theorem foldl_segStep_sections_stable (lines : List String) (st : SegState)
    (h : ∀ kv ∈ st.sections, pyStrip kv.2 = kv.2) :
    ∀ kv ∈ (lines.foldl segStep st).sections, pyStrip kv.2 = kv.2 := by
  induction lines generalizing st with
  | nil => exact h
  | cons l ls ih =>
    rw [List.foldl_cons]
    refine ih (segStep st l) ?_
    intro kv hkv
    cases hm : matchHeading l with
    | none =>
      rw [segStep_of_none hm] at hkv
      exact h kv hkv
    | some key =>
      rw [segStep_sections_of_some hm] at hkv
      rcases mem_setSection _ _ _ _ hkv with hkv | hkv
      · rw [hkv]
        exact pyStrip_pyStrip _
      · exact h kv hkv

theorem getSection_stable (m : List (String × String))
    (h : ∀ kv ∈ m, pyStrip kv.2 = kv.2) (k : String) :
    pyStrip (getSection m k) = getSection m k := by
  induction m with
  | nil => rfl
  | cons kv rest ih =>
    obtain ⟨k', v'⟩ := kv
    by_cases hk : k' = k
    · rw [getSection, if_pos hk]
      exact h (k', v') (List.mem_cons_self _ _)
    · rw [getSection, if_neg hk]
      exact ih fun kv hkv => h kv (List.mem_cons.mpr (Or.inr hkv))

theorem seg_sections_stable (lines : List String) (k : String) :
    pyStrip (getSection (segmentLines lines).sections k)
      = getSection (segmentLines lines).sections k := by
  apply getSection_stable
  intro kv hkv
  unfold segmentLines at hkv
  simp only at hkv
  unfold flushSeg at hkv
  rcases mem_setSection _ _ _ _ hkv with hkv | hkv
  · rw [hkv]
    exact pyStrip_pyStrip _
  · exact foldl_segStep_sections_stable lines initialSegState (by simp [initialSegState])
      kv hkv

/-! ### Heads and last characters of joined line lists -/

theorem joinCharList_cons_of_ne (c : Char) (b : List Char)
    (rest : List (List Char)) (h : rest ≠ []) :
    joinCharList c (b :: rest) = b ++ c :: joinCharList c rest := by
  cases rest with
  | nil => exact absurd rfl h
  | cons b' rest' => rfl

theorem joinCharList_head?_of_ne (c : Char) (b : List Char)
    (bs : List (List Char)) (hb : b ≠ []) :
    (joinCharList c (b :: bs)).head? = b.head? := by
  cases bs with
  | nil => rfl
  | cons b' bs' =>
    cases b with
    | nil => exact absurd rfl hb
    | cons x xs => rfl

theorem getLast?_cons_of_ne_nil {α : Type} (a : α) (l : List α) (h : l ≠ []) :
    (a :: l).getLast? = l.getLast? := by
  cases l with
  | nil => exact absurd rfl h
  | cons b bs => exact List.getLast?_cons_cons

theorem joinCharList_getLast?_concat (c : Char) (gs : List (List Char))
    (g : List Char) (hg : g ≠ []) :
    (joinCharList c (gs ++ [g])).getLast? = g.getLast? := by
  induction gs with
  | nil => rfl
  | cons b gs' ih =>
    rw [List.cons_append,
      joinCharList_cons_of_ne c b (gs' ++ [g]) (by simp),
      List.getLast?_append]
    have hjoin_ne : joinCharList c (gs' ++ [g]) ≠ [] := by
      intro hnil
      rw [← List.getLast?_eq_none_iff, ih] at hnil
      rw [List.getLast?_eq_none_iff] at hnil
      exact hg hnil
    rw [getLast?_cons_of_ne_nil c _ hjoin_ne, ih]
    have : g.getLast?.isSome := by
      rw [Option.isSome_iff_ne_none]
      intro hn
      rw [List.getLast?_eq_none_iff] at hn
      exact hg hn
    cases hsome : g.getLast? with
    | none => rw [hsome] at this; cases this
    | some x => simp [Option.or]

theorem joinCharList_getLast?_concat_nil (c : Char) (gs : List (List Char)) :
    (joinCharList c (gs ++ [([] : List Char)])).getLast?
      = if gs = [] then none else some c := by
  induction gs with
  | nil => rfl
  | cons b gs' ih =>
    rw [List.cons_append,
      joinCharList_cons_of_ne c b (gs' ++ [[]]) (by simp),
      List.getLast?_append]
    rw [if_neg (by simp)]
    by_cases hgs : gs' = []
    · subst hgs
      simp [joinCharList, Option.or]
    · have hne : joinCharList c (gs' ++ [[]]) ≠ [] := by
        intro hnil
        rw [← List.getLast?_eq_none_iff, ih, if_neg hgs] at hnil
        exact Option.noConfusion hnil
      rw [getLast?_cons_of_ne_nil c _ hne, ih, if_neg hgs]
      simp [Option.or]

theorem splitCharList_cons_ne (c x : Char) (rest : List Char) (hx : ¬(x = c)) :
    ∃ g gs, splitCharList c (x :: rest) = (x :: g) :: gs
      ∧ splitCharList c rest = g :: gs := by
  simp only [splitCharList, if_neg hx]
  cases hs : splitCharList c rest with
  | nil => exact absurd hs (splitCharList_ne_nil c rest)
  | cons g gs => exact ⟨g, gs, rfl, rfl⟩

theorem splitCharList_getLast_group (c : Char) (cs : List Char) {x : Char}
    (hlast : cs.getLast? = some x) (hx : ¬(x = c)) :
    ∃ gs g, splitCharList c cs = gs ++ [g] ∧ g.getLast? = some x := by
  obtain ⟨gs, g, hsplit⟩ : ∃ gs g, splitCharList c cs = gs ++ [g] := by
    rcases List.eq_nil_or_concat (splitCharList c cs) with h | ⟨gs, g, h⟩
    · exact absurd h (splitCharList_ne_nil c cs)
    · exact ⟨gs, g, by rw [h, List.concat_eq_append]⟩
  refine ⟨gs, g, hsplit, ?_⟩
  have hjoin : joinCharList c (gs ++ [g]) = cs := by
    rw [← hsplit, joinCharList_splitCharList]
  by_cases hg : g = []
  · exfalso
    subst hg
    have hl := joinCharList_getLast?_concat_nil c gs
    rw [hjoin, hlast] at hl
    by_cases hgs : gs = []
    · rw [if_pos hgs] at hl; cases hl
    · rw [if_neg hgs] at hl
      injection hl with hl
      exact hx hl
  · have hl := joinCharList_getLast?_concat c gs g hg
    rw [hjoin, hlast] at hl
    exact hl.symm

/-! ### The first-header scan and the section loop of `create_styled_docx` -/

theorem isPrefixChars_self_append (p m : List Char) :
    isPrefixChars p (p ++ m) = true := by
  induction p with
  | nil => rfl
  | cons c cs ih => simp [isPrefixChars, ih]

theorem startsWithStr_self_append (pre x : String) :
    startsWithStr (pre ++ x) pre = true := by
  unfold startsWithStr
  rw [data_append]
  exact isPrefixChars_self_append _ _

theorem firstHeaderIdx_none (ls : List String)
    (h : ∀ l ∈ ls, startsWithStr l "## " = false) : firstHeaderIdx ls = none := by
  induction ls with
  | nil => rfl
  | cons l ls ih =>
    rw [firstHeaderIdx, if_neg (by rw [h l (List.mem_cons_self l ls)]; simp),
      ih fun x hx => h x (List.mem_cons.mpr (Or.inr hx))]
    rfl

theorem firstHeaderIdx_append (l₁ l₂ : List String)
    (h : ∀ l ∈ l₁, startsWithStr l "## " = false) :
    firstHeaderIdx (l₁ ++ l₂) = (firstHeaderIdx l₂).map (l₁.length + ·) := by
  induction l₁ with
  | nil =>
    cases h2 : firstHeaderIdx l₂ <;> simp [h2]
  | cons a as ih =>
    rw [List.cons_append, firstHeaderIdx,
      if_neg (by rw [h a (List.mem_cons_self a as)]; simp),
      ih fun x hx => h x (List.mem_cons.mpr (Or.inr hx))]
    cases h2 : firstHeaderIdx l₂ <;> simp [h2] <;> omega

theorem parseRun_skip (ls rest : List String) (cur : Option String)
    (buf : List String) (h : ∀ l ∈ ls, startsWithStr l "## " = false) :
    parseRun (ls ++ rest) cur buf = parseRun rest cur (buf ++ ls) := by
  induction ls generalizing buf with
  | nil => simp
  | cons a as ih =>
    rw [List.cons_append, parseRun,
      if_neg (by rw [h a (List.mem_cons_self a as)]; simp),
      ih _ fun x hx => h x (List.mem_cons.mpr (Or.inr hx))]
    simp

theorem parseRun_keyblocks (ks : List String) (cfun : String → String)
    (cur : Option String) (buf : List String)
    (hkey : ∀ k ∈ ks, headerKeyOf ("## " ++ k) = k)
    (hstable : ∀ k ∈ ks, pyStrip (cfun k) = cfun k)
    (hsafe : ∀ k ∈ ks, ∀ l ∈ linesOfStr (cfun k), startsWithStr l "## " = false) :
    parseRun (ks.flatMap fun k => ("## " ++ k) :: linesOfStr (cfun k)) cur buf
      = flushPart cur buf ++ ks.map (fun k => (k, cfun k)) := by
  induction ks generalizing cur buf with
  | nil => simp [parseRun]
  | cons k ks' ih =>
    rw [List.flatMap_cons, List.cons_append, parseRun,
      if_pos (startsWithStr_self_append "## " k),
      parseRun_skip _ _ _ _ (hsafe k (List.mem_cons_self k ks')),
      ih _ _ (fun x hx => hkey x (List.mem_cons.mpr (Or.inr hx)))
        (fun x hx => hstable x (List.mem_cons.mpr (Or.inr hx)))
        (fun x hx => hsafe x (List.mem_cons.mpr (Or.inr hx))),
      hkey k (List.mem_cons_self k ks')]
    rw [show flushPart (some k) ([] ++ linesOfStr (cfun k))
        = [(k, pyStrip (joinLines (linesOfStr (cfun k))))] from rfl]
    rw [joinLines_linesOfStr, hstable k (List.mem_cons_self k ks')]
    simp

theorem flatMap_congr_mem {α β : Type} (l : List α) (f g : α → List β)
    (h : ∀ x ∈ l, f x = g x) : l.flatMap f = l.flatMap g := by
  induction l with
  | nil => rfl
  | cons a as ih =>
    rw [List.flatMap_cons, List.flatMap_cons, h a (List.mem_cons_self a as),
      ih fun x hx => h x (List.mem_cons.mpr (Or.inr hx))]

theorem flatMap_if_filter (c : String → String) (B : String → List String)
    (rest : List String) :
    (rest.flatMap fun k => if c k = "" then [] else B k)
      = (rest.filter fun k => c k != "").flatMap B := by
  induction rest with
  | nil => rfl
  | cons k ks ih =>
    by_cases hk : c k = ""
    · simp [List.flatMap_cons, List.filter_cons, hk, ih]
    · simp [List.flatMap_cons, List.filter_cons, hk, ih]

theorem getSection_map_pairs (f : String → String) (order : List String)
    (k : String) (hk : k ∈ order) :
    getSection (order.map fun j => (j, f j)) k = f k := by
  induction order with
  | nil => cases hk
  | cons j js ih =>
    by_cases hj : j = k
    · simp [getSection, hj]
    · rcases List.mem_cons.mp hk with h | h
      · exact absurd h.symm hj
      · simp only [List.map_cons]
        rw [getSection, if_neg hj]
        exact ih h

theorem patternKeys_header_roundtrip :
    ∀ k ∈ patternKeys, headerKeyOf ("## " ++ k) = k := by decide

theorem patternKeys_no_newline : ∀ k ∈ patternKeys, '\n' ∉ k.data := by decide

theorem seg_order_structure (lines : List String) :
    ∃ rest, (segmentLines lines).order = "CONTACT_INFO" :: rest
      ∧ "CONTACT_INFO" ∉ rest ∧ ∀ k ∈ rest, k ∈ patternKeys := by
  have hh := segmentLines_order_head lines
  have hnd := segmentLines_order_nodup lines
  cases horder : (segmentLines lines).order with
  | nil => rw [horder] at hh; cases hh
  | cons c rest =>
    rw [horder] at hh hnd
    have hc : c = "CONTACT_INFO" := by
      have : some c = some "CONTACT_INFO" := hh
      injection this
    subst hc
    refine ⟨rest, rfl, (List.nodup_cons.mp hnd).1, ?_⟩
    intro k hk
    have hmem : k ∈ (segmentLines lines).order := by
      rw [horder]
      exact List.mem_cons.mpr (Or.inr hk)
    rcases (segmentLines_order_mem lines k).mp hmem with rfl | ⟨l, _, hm⟩
    · exact absurd hk (List.nodup_cons.mp hnd).1
    · exact matchHeading_mem hm

/-! ### First and last lines of a strip-stable content -/

theorem data_ne_nil_of_ne_empty (s : String) (h : s ≠ "") : s.data ≠ [] := by
  intro hd
  apply h
  rw [← mk_data s, hd]

theorem wsChar_false_ne_newline {x : Char} (h : wsChar x = false) : ¬(x = '\n') := by
  intro hx
  subst hx
  cases h

theorem linesOfStr_head_of_stable (c : String) (hst : pyStrip c = c) (hne : c ≠ "") :
    ∃ l₀ ls, linesOfStr c = l₀ :: ls
      ∧ ∃ x, l₀.data.head? = some x ∧ wsChar x = false := by
  cases hd : c.data with
  | nil => exact absurd hd (data_ne_nil_of_ne_empty c hne)
  | cons x cs =>
    have hx : wsChar x = false := pyStrip_head_not_ws c hst (by rw [hd]; rfl)
    obtain ⟨g, gs, hsplit, -⟩ :=
      splitCharList_cons_ne '\n' x cs (wsChar_false_ne_newline hx)
    refine ⟨String.mk (x :: g), (gs.map String.mk), ?_, x, rfl, hx⟩
    unfold linesOfStr
    rw [hd, hsplit]
    rfl

theorem linesOfStr_last_of_stable (c : String) (hst : pyStrip c = c) (hne : c ≠ "") :
    ∃ ls l₁, linesOfStr c = ls ++ [l₁]
      ∧ ∃ x, l₁.data.getLast? = some x ∧ wsChar x = false := by
  have hdne := data_ne_nil_of_ne_empty c hne
  obtain ⟨x, hx⟩ : ∃ x, c.data.getLast? = some x := by
    cases hl : c.data.getLast? with
    | none => exact absurd (List.getLast?_eq_none_iff.mp hl) hdne
    | some y => exact ⟨y, rfl⟩
  have hxws : wsChar x = false := pyStrip_getLast_not_ws c hst hx
  obtain ⟨gs, g, hsplit, hg⟩ :=
    splitCharList_getLast_group '\n' c.data hx (wsChar_false_ne_newline hxws)
  refine ⟨gs.map String.mk, String.mk g, ?_, x, hg, hxws⟩
  unfold linesOfStr
  rw [hsplit, List.map_append]
  rfl

/-! ### Restoring the line list from the re-assembled markdown -/

theorem markdown_restore (blocks : List String) (hne : blocks ≠ [])
    (hfree : ∀ l ∈ blocks, '\n' ∉ l.data)
    (hhead : ∃ x, (blocks.headD "").data.head? = some x ∧ wsChar x = false)
    (hlast : ∃ x, (blocks.getLastD "").data.getLast? = some x ∧ wsChar x = false) :
    linesOfStr (pyStrip (joinLines blocks)) = blocks := by
  have hstable : pyStrip (joinLines blocks) = joinLines blocks := by
    apply pyStrip_eq_self
    · intro a ha
      obtain ⟨x, hx, hxws⟩ := hhead
      cases hb : blocks with
      | nil => exact absurd hb hne
      | cons b bs =>
        have hbne : b.data ≠ [] := by
          intro hnil
          rw [hb] at hx
          simp only [List.headD_cons] at hx
          rw [hnil] at hx
          cases hx
        have : (joinLines (b :: bs)).data.head? = b.data.head? := by
          show (joinCharList '\n' ((b :: bs).map String.data)).head? = b.data.head?
          exact joinCharList_head?_of_ne '\n' b.data (bs.map String.data) hbne
        rw [hb] at ha
        rw [this] at ha
        rw [hb] at hx
        simp only [List.headD_cons] at hx
        rw [hx] at ha
        injection ha with ha
        rw [← ha]
        exact hxws
    · intro a ha
      obtain ⟨x, hx, hxws⟩ := hlast
      obtain ⟨bs, b, hb⟩ : ∃ bs b, blocks = bs ++ [b] := by
        rcases List.eq_nil_or_concat blocks with h | ⟨bs, b, h⟩
        · exact absurd h hne
        · exact ⟨bs, b, by rw [h, List.concat_eq_append]⟩
      have hblast : blocks.getLastD "" = b := by
        rw [hb, List.getLastD_concat]
      rw [hblast] at hx
      have hbne : b.data ≠ [] := by
        intro hnil
        rw [hnil] at hx
        cases hx
      have : (joinLines blocks).data.getLast? = b.data.getLast? := by
        show (joinCharList '\n' (blocks.map String.data)).getLast? = b.data.getLast?
        rw [hb, List.map_append]
        exact joinCharList_getLast?_concat '\n' (bs.map String.data) b.data hbne
      rw [this, hx] at ha
      injection ha with ha
      rw [← ha]
      exact hxws
  rw [hstable]
  exact linesOfStr_joinLines blocks hne hfree

theorem parseSectionsLines_of_none (lines : List String)
    (h : firstHeaderIdx lines = none) :
    parseSectionsLines lines = [("CONTACT_INFO", joinLines lines)] := by
  unfold parseSectionsLines
  rw [h]

theorem parseSectionsLines_of_some (lines : List String) (i : Nat)
    (h : firstHeaderIdx lines = some i) :
    parseSectionsLines lines
      = ("CONTACT_INFO", pyStrip (joinLines (lines.take i)))
        :: parseRun (lines.drop i) none [] := by
  unfold parseSectionsLines
  rw [h]

theorem filter_eq_self_of_all {α : Type} (p : α → Bool) (l : List α)
    (h : ∀ a ∈ l, p a = true) : l.filter p = l := by
  induction l with
  | nil => rfl
  | cons a as ih =>
    rw [List.filter_cons, if_pos (h a (List.mem_cons_self a as)),
      ih fun x hx => h x (List.mem_cons.mpr (Or.inr hx))]

theorem lines_no_newline (c : String) : ∀ l ∈ linesOfStr c, '\n' ∉ l.data := by
  intro l hl
  unfold linesOfStr at hl
  obtain ⟨g, hg, rfl⟩ := List.mem_map.mp hl
  exact mem_splitCharList_not_mem '\n' c.data g hg

/-- The composed round trip, abstract in the section map and order. -/
theorem parse_reassemble_main (m parts : List (String × String))
    (rest : List String)
    (hparts : ∀ k ∈ ("CONTACT_INFO" :: rest), getSection parts k = getSection m k)
    (hrest_pat : ∀ k ∈ rest, k ∈ patternKeys)
    (hnc : "CONTACT_INFO" ∉ rest)
    (hstable : ∀ k, pyStrip (getSection m k) = getSection m k)
    (hsafe : ∀ k ∈ ("CONTACT_INFO" :: rest),
      ∀ l ∈ linesOfStr (getSection m k), startsWithStr l "## " = false) :
    (parseSections (reassemble parts ("CONTACT_INFO" :: rest))).filter
        (fun p => p.2 != "")
      = (("CONTACT_INFO" :: rest).filter fun k => getSection m k != "").map
          (fun k => (k, getSection m k)) := by
  have hcongr : ∀ k ∈ rest,
      (if getSection parts k = "" then []
       else if k = "CONTACT_INFO" then linesOfStr (getSection parts k)
       else ("## " ++ k) :: linesOfStr (getSection parts k))
      = (if getSection m k = "" then []
         else ("## " ++ k) :: linesOfStr (getSection m k)) := by
    intro k hk
    have hkc : ¬(k = "CONTACT_INFO") := fun h => hnc (h ▸ hk)
    rw [hparts k (List.mem_cons.mpr (Or.inr hk)), if_neg hkc]
  have hreassemble : reassembleLines parts ("CONTACT_INFO" :: rest)
      = (if getSection m "CONTACT_INFO" = "" then []
         else linesOfStr (getSection m "CONTACT_INFO"))
        ++ (rest.filter fun k => getSection m k != "").flatMap
            (fun k => ("## " ++ k) :: linesOfStr (getSection m k)) := by
    unfold reassembleLines
    rw [List.flatMap_cons, flatMap_congr_mem rest _ _ hcongr, flatMap_if_filter]
    congr 1
    rw [hparts _ (List.mem_cons_self _ _)]
    by_cases hcc : getSection m "CONTACT_INFO" = ""
    · rw [if_pos hcc, if_pos hcc]
    · rw [if_neg hcc, if_neg hcc, if_pos rfl]
  have hFR_mem : ∀ k ∈ rest.filter (fun k => getSection m k != ""), k ∈ rest :=
    fun k hk => (List.mem_filter.mp hk).1
  have hFR_ne : ∀ k ∈ rest.filter (fun k => getSection m k != ""),
      getSection m k ≠ "" := by
    intro k hk
    simpa using (List.mem_filter.mp hk).2
  have hrun : parseRun
      ((rest.filter fun k => getSection m k != "").flatMap
        fun k => ("## " ++ k) :: linesOfStr (getSection m k)) none []
      = (rest.filter fun k => getSection m k != "").map
          (fun k => (k, getSection m k)) := by
    rw [parseRun_keyblocks _ _ none []
      (fun k hk => patternKeys_header_roundtrip k (hrest_pat k (hFR_mem k hk)))
      (fun k _ => hstable k)
      (fun k hk => hsafe k (List.mem_cons.mpr (Or.inr (hFR_mem k hk))))]
    rfl
  have hfree_blocks : ∀ l ∈ (rest.filter fun k => getSection m k != "").flatMap
      (fun k => ("## " ++ k) :: linesOfStr (getSection m k)), '\n' ∉ l.data := by
    intro l hl
    obtain ⟨k, hk, hlk⟩ := List.mem_flatMap.mp hl
    rcases List.mem_cons.mp hlk with rfl | hlk
    · rw [data_append]
      intro hmem
      rcases List.mem_append.mp hmem with h | h
      · revert h; decide
      · exact patternKeys_no_newline k (hrest_pat k (hFR_mem k hk)) h
    · exact lines_no_newline _ l hlk
  have hfilter_keep :
      ((rest.filter fun k => getSection m k != "").map
        (fun k => (k, getSection m k))).filter (fun p => p.2 != "")
      = (rest.filter fun k => getSection m k != "").map
          (fun k => (k, getSection m k)) := by
    apply filter_eq_self_of_all
    intro p hp
    obtain ⟨k, hk, rfl⟩ := List.mem_map.mp hp
    simpa using hFR_ne k hk
  unfold parseSections reassemble
  rw [hreassemble]
  by_cases hc : getSection m "CONTACT_INFO" = ""
  · rw [if_pos hc]
    rw [List.nil_append]
    by_cases hFRnil : rest.filter (fun k => getSection m k != "") = []
    · rw [hFRnil] at hrun ⊢
      rw [List.filter_cons, if_neg (by simp [hc]), hFRnil]
      rfl
    · have hFRne : rest.filter (fun k => getSection m k != "") ≠ [] := hFRnil
      obtain ⟨k₁, ks', hFRcons⟩ := List.exists_cons_of_ne_nil hFRnil
      obtain ⟨ksInit, kLast, hksplit⟩ :
          ∃ ksInit kLast, rest.filter (fun k => getSection m k != "")
            = ksInit ++ [kLast] := by
        rcases List.eq_nil_or_concat (rest.filter (fun k => getSection m k != ""))
          with h | ⟨a, b, h⟩
        · exact absurd h hFRne
        · exact ⟨a, b, by rw [h, List.concat_eq_append]⟩
      have hkLast_mem : kLast ∈ rest.filter (fun k => getSection m k != "") := by
        rw [hksplit]; simp
      obtain ⟨lls, lLast, hlines_last, x, hxlast, hxws⟩ :=
        linesOfStr_last_of_stable (getSection m kLast) (hstable _)
          (hFR_ne kLast hkLast_mem)
      have hblocks_decomp :
          (rest.filter fun k => getSection m k != "").flatMap
            (fun k => ("## " ++ k) :: linesOfStr (getSection m k))
          = (ksInit.flatMap (fun k => ("## " ++ k) :: linesOfStr (getSection m k))
              ++ ("## " ++ kLast) :: lls) ++ [lLast] := by
        rw [hksplit, List.flatMap_append, List.flatMap_cons, List.flatMap_nil,
          List.append_nil, hlines_last]
        rw [← List.cons_append, List.append_assoc]
      have hrestore : linesOfStr (pyStrip (joinLines
          ((rest.filter fun k => getSection m k != "").flatMap
            (fun k => ("## " ++ k) :: linesOfStr (getSection m k)))))
          = (rest.filter fun k => getSection m k != "").flatMap
              (fun k => ("## " ++ k) :: linesOfStr (getSection m k)) := by
        apply markdown_restore
        · rw [hFRcons]; simp [List.flatMap_cons]
        · exact hfree_blocks
        · rw [hFRcons, List.flatMap_cons, List.cons_append]
          refine ⟨'#', ?_, by decide⟩
          rw [List.headD_cons]
          rw [data_append]
          rfl
        · rw [hblocks_decomp]
          refine ⟨x, ?_, hxws⟩
          rw [List.getLastD_concat]
          exact hxlast
      rw [hrestore]
      have hidx : firstHeaderIdx
          ((rest.filter fun k => getSection m k != "").flatMap
            (fun k => ("## " ++ k) :: linesOfStr (getSection m k))) = some 0 := by
        rw [hFRcons, List.flatMap_cons, List.cons_append, firstHeaderIdx,
          if_pos (startsWithStr_self_append "## " k₁)]
      rw [parseSectionsLines_of_some _ 0 hidx]
      rw [List.take_zero, List.drop_zero, hrun]
      rw [List.filter_cons]
      rw [if_neg (by decide)]
      rw [List.filter_cons, if_neg (by simp [hc]), hfilter_keep]
  · rw [if_neg hc]
    obtain ⟨l₀, ls₀, hlines_head, y, hyhead, hyws⟩ :=
      linesOfStr_head_of_stable (getSection m "CONTACT_INFO") (hstable _) hc
    by_cases hFRnil : rest.filter (fun k => getSection m k != "") = []
    · rw [hFRnil, List.flatMap_nil, List.append_nil]
      rw [joinLines_linesOfStr, hstable]
      have hnone := firstHeaderIdx_none (linesOfStr (getSection m "CONTACT_INFO"))
        (hsafe "CONTACT_INFO" (List.mem_cons_self _ _))
      rw [parseSectionsLines_of_none _ hnone, joinLines_linesOfStr]
      rw [List.filter_cons, if_pos (by simpa using hc)]
      rw [List.filter_cons, if_pos (by simpa using hc), hFRnil]
      rfl
    · have hFRne : rest.filter (fun k => getSection m k != "") ≠ [] := hFRnil
      obtain ⟨k₁, ks', hFRcons⟩ := List.exists_cons_of_ne_nil hFRnil
      obtain ⟨ksInit, kLast, hksplit⟩ :
          ∃ ksInit kLast, rest.filter (fun k => getSection m k != "")
            = ksInit ++ [kLast] := by
        rcases List.eq_nil_or_concat (rest.filter (fun k => getSection m k != ""))
          with h | ⟨a, b, h⟩
        · exact absurd h hFRne
        · exact ⟨a, b, by rw [h, List.concat_eq_append]⟩
      have hkLast_mem : kLast ∈ rest.filter (fun k => getSection m k != "") := by
        rw [hksplit]; simp
      obtain ⟨lls, lLast, hlines_last, x, hxlast, hxws⟩ :=
        linesOfStr_last_of_stable (getSection m kLast) (hstable _)
          (hFR_ne kLast hkLast_mem)
      have hblocks_decomp :
          linesOfStr (getSection m "CONTACT_INFO")
            ++ (rest.filter fun k => getSection m k != "").flatMap
              (fun k => ("## " ++ k) :: linesOfStr (getSection m k))
          = (linesOfStr (getSection m "CONTACT_INFO")
              ++ (ksInit.flatMap (fun k => ("## " ++ k) :: linesOfStr (getSection m k))
                ++ ("## " ++ kLast) :: lls)) ++ [lLast] := by
        rw [hksplit, List.flatMap_append, List.flatMap_cons, List.flatMap_nil,
          List.append_nil, hlines_last]
        rw [← List.cons_append]
        simp [List.append_assoc]
      have hrestore : linesOfStr (pyStrip (joinLines
          (linesOfStr (getSection m "CONTACT_INFO")
            ++ (rest.filter fun k => getSection m k != "").flatMap
              (fun k => ("## " ++ k) :: linesOfStr (getSection m k)))))
          = linesOfStr (getSection m "CONTACT_INFO")
            ++ (rest.filter fun k => getSection m k != "").flatMap
              (fun k => ("## " ++ k) :: linesOfStr (getSection m k)) := by
        apply markdown_restore
        · rw [hlines_head]; simp
        · intro l hl
          rcases List.mem_append.mp hl with h | h
          · exact lines_no_newline _ l h
          · exact hfree_blocks l h
        · rw [hlines_head, List.cons_append]
          exact ⟨y, by rw [List.headD_cons]; exact hyhead, hyws⟩
        · rw [hblocks_decomp]
          refine ⟨x, ?_, hxws⟩
          rw [List.getLastD_concat]
          exact hxlast
      rw [hrestore]
      have hidxr : firstHeaderIdx
          ((rest.filter fun k => getSection m k != "").flatMap
            (fun k => ("## " ++ k) :: linesOfStr (getSection m k))) = some 0 := by
        rw [hFRcons, List.flatMap_cons, List.cons_append, firstHeaderIdx,
          if_pos (startsWithStr_self_append "## " k₁)]
      have hidx : firstHeaderIdx
          (linesOfStr (getSection m "CONTACT_INFO")
            ++ (rest.filter fun k => getSection m k != "").flatMap
              (fun k => ("## " ++ k) :: linesOfStr (getSection m k)))
          = some (linesOfStr (getSection m "CONTACT_INFO")).length := by
        rw [firstHeaderIdx_append _ _
          (hsafe "CONTACT_INFO" (List.mem_cons_self _ _)), hidxr]
        rfl
      rw [parseSectionsLines_of_some _ _ hidx]
      rw [List.take_left, List.drop_left, hrun]
      rw [joinLines_linesOfStr, hstable]
      rw [List.filter_cons, if_pos (by simpa using hc)]
      rw [List.filter_cons, if_pos (by simpa using hc), hfilter_keep]
      rfl

/-- **C3 counterexample.** The round trip fails as universally stated: in a
document whose contact block itself contains a line beginning with `"## "`
(the heading marker of the re-assembled markdown), re-parsing splits that
line off as a new section, so neither the section order nor the contents are
reproduced. -/
theorem claim_C3_counterexample :
    (parseSections (reassemble (identityTailoring (segmentCV "## Weird\nhello"))
        (segmentCV "## Weird\nhello").order)).filter (fun p => p.2 != "")
      ≠ ((segmentCV "## Weird\nhello").order.filter
          (fun k => getSection (segmentCV "## Weird\nhello").sections k != "")).map
          (fun k => (k, getSection (segmentCV "## Weird\nhello").sections k)) := by
  decide

/-- **C3 (amended).** For every document text none of whose segmented section
contents contains a line beginning with `"## "` (the re-assembly heading
marker), segmenting the document, applying the identity tailoring to every
section (tailoring zero sections), re-assembling, and re-parsing with the
section splitter of `create_styled_docx` reproduces the original document's
section order and the non-empty content of every section exactly. -/
theorem claim_C3_roundtrip (cv_text : String)
    (hsafe : ∀ k ∈ (segmentCV cv_text).order,
      ∀ l ∈ linesOfStr (getSection (segmentCV cv_text).sections k),
        startsWithStr l "## " = false) :
    (parseSections (reassemble (identityTailoring (segmentCV cv_text))
        (segmentCV cv_text).order)).filter (fun p => p.2 != "")
      = ((segmentCV cv_text).order.filter
          (fun k => getSection (segmentCV cv_text).sections k != "")).map
          (fun k => (k, getSection (segmentCV cv_text).sections k)) := by
  obtain ⟨rest, horder, hnc, hpat⟩ := seg_order_structure (linesOfStr cv_text)
  have horder' : (segmentCV cv_text).order = "CONTACT_INFO" :: rest := horder
  rw [horder'] at hsafe ⊢
  refine parse_reassemble_main (segmentCV cv_text).sections _ rest ?_ hpat hnc ?_ hsafe
  · intro k hk
    unfold identityTailoring
    rw [horder']
    exact getSection_map_pairs _ _ k hk
  · intro k
    exact seg_sections_stable (linesOfStr cv_text) k

/-- Witness for the amended C3 at a concrete three-section CV. -/
theorem claim_C3_witness :
    (parseSections (reassemble
        (identityTailoring (segmentCV "Jane Doe\nSummary\nExperienced analyst\nSkills\nPython, SQL"))
        (segmentCV "Jane Doe\nSummary\nExperienced analyst\nSkills\nPython, SQL").order)).filter
        (fun p => p.2 != "")
      = ((segmentCV "Jane Doe\nSummary\nExperienced analyst\nSkills\nPython, SQL").order.filter
          (fun k => getSection
            (segmentCV "Jane Doe\nSummary\nExperienced analyst\nSkills\nPython, SQL").sections k != "")).map
          (fun k => (k, getSection
            (segmentCV "Jane Doe\nSummary\nExperienced analyst\nSkills\nPython, SQL").sections k)) :=
  claim_C3_roundtrip "Jane Doe\nSummary\nExperienced analyst\nSkills\nPython, SQL"
    (by decide)

end ResumeTailor
